import Mathlib

/-!
Shallow embedding of the adaptive task-chain engine of
mcp-server-go/internal/tools/task_tools.go (the V2 functions
initTaskChainV2, startStepV2, completeStepV2, insertStepsV2,
updateStepsV2, deleteStepsV2, the shared finishChain, and the
decision-point renderer renderDecisionPoint), together with proofs of
the specification claims about them.

Modelling conventions:
* Go float64 step numbers are modelled as exact rationals.  All
  numbers produced by the engine are small multiples of one tenth, and
  the code only adds them, divides by ten, and compares them, so the
  rational model agrees with the IEEE semantics on every value
  exercised in this development.
* Go strings are modelled as Lean String.  Where the byte length of a
  string matters (the 100-byte summary truncation in
  renderDecisionPoint, which uses Go len and byte slicing) the UTF-8
  byte sequence of the string is computed explicitly.
* The session maps SessionManager.TaskChains / .TaskChainsV2 (Go
  map values behind pointers) are modelled as association lists; a nil
  Go map reads like an empty one, so the lazy map allocations in the
  code are invisible here.  In-place mutation through pointers becomes
  explicit state passing: every operation returns its result together
  with the updated session state, and each Go return statement is
  translated at the point at which it occurs, so an early error return
  yields the state exactly as mutated so far.
* Each distinct mcp.NewToolResultError call site is represented by a
  constructor of TCErr; success results are TCResult.ok, except the
  success of completeStepV2, which carries the structured content of
  the decision-point briefing built by renderDecisionPoint.
* The legacy V1 operations (initTaskChain, getNextStep, resumeTask,
  insertSteps, deleteSteps) and the dispatch wrapper are not modelled:
  no claim concerns them.  finishChain is modelled because the finish
  mode routes directly to it; note that it reads and writes the legacy
  map TaskChains, not TaskChainsV2.
-/

namespace MPM

/-- Step lifecycle status.  The constants StepStatusTodo,
StepStatusInProgress and StepStatusComplete are declared in a session
file outside the reviewed tree; the three-valued enumeration is
reconstructed from their uses in task_tools.go. -/
inductive StepStatus where
  | Todo
  | InProgress
  | Complete
deriving DecidableEq, Repr, Inhabited

/-- One step of a V2 task chain (the Step struct, declared outside the
reviewed tree; fields reconstructed from their uses in task_tools.go):
fractional number (Go float64, here a rational), name, suggested input,
lifecycle status, and completion summary. -/
structure Step where
  Number : ℚ
  Name : String
  Input : String
  Status : StepStatus
  Summary : String
deriving DecidableEq, Repr, Inhabited

/-- A V2 adaptive task chain (the TaskChainV2 struct, reconstructed
from its uses in task_tools.go). -/
structure TaskChainV2 where
  TaskID : String
  Description : String
  Steps : List Step
  CurrentStep : ℚ
  Status : String
deriving DecidableEq, Repr, Inhabited

/-- A legacy V1 task chain (the TaskChain struct, reconstructed from
its uses in task_tools.go): a plain list of step descriptions with an
index of the current one.  Among the modelled operations only
finishChain touches it. -/
structure TaskChain where
  TaskID : String
  Plan : List String
  CurrentStep : Int
  Status : String
deriving DecidableEq, Repr, Inhabited

/-- The session state: the two task-chain maps of the Go
SessionManager (its remaining fields are neither read nor written by
the modelled operations).  Go maps become association lists. -/
structure SessionManager where
  TaskChains : List (String × TaskChain)
  TaskChainsV2 : List (String × TaskChainV2)
deriving DecidableEq, Repr, Inhabited

/-- Exact-key lookup in an association list (a Go map read). -/
def lookupAssoc {α : Type} : List (String × α) → String → Option α
  | [], _ => none
  | (k, v) :: rest, id => if k = id then some v else lookupAssoc rest id

/-- Overwriting insertion into an association list (a Go map write). -/
def setAssoc {α : Type} : List (String × α) → String → α → List (String × α)
  | [], id, c => [(id, c)]
  | (k, v) :: rest, id, c =>
      if k = id then (k, c) :: rest else (k, v) :: setAssoc rest id c

/-- One entry of a plan / insert_plan / update_plan array: the Go code
reads the name key and, when present, the input key; an absent input
behaves exactly like the empty string. -/
structure PlanEntry where
  name : String
  input : String
deriving DecidableEq, Repr, Inhabited

/-- One constructor per mcp.NewToolResultError call site of the
modelled operations (in Go the errors are distinct formatted
strings). -/
inductive TCErr where
  /-- Go message: the given mode needs a task_id parameter. -/
  | missingTaskID (mode : String)
  /-- Go message: step mode needs a plan parameter. -/
  | emptyPlan
  /-- Go message: the task does not exist. -/
  | chainNotFound (taskID : String)
  /-- Go message of startStepV2 / completeStepV2: the step does not
  exist. -/
  | stepNotFound (n : ℚ)
  /-- Go message of startStepV2: the step has the given status and
  cannot be started. -/
  | invalidStart (n : ℚ) (s : StepStatus)
  /-- Go message of completeStepV2: the step has the given status and
  cannot be completed. -/
  | invalidComplete (n : ℚ) (s : StepStatus)
  /-- Go message: complete mode must provide a summary parameter. -/
  | missingSummary
  /-- Go message: insert mode needs an insert_plan parameter. -/
  | emptyInsertPlan
  /-- Go message: update mode needs an update_plan parameter. -/
  | emptyUpdatePlan
  /-- Go message of insertStepsV2 (anchor lookup): the step does not
  exist. -/
  | anchorNotFound (n : ℚ)
  /-- Go message of deleteStepsV2: cannot delete the step in
  progress. -/
  | cannotDeleteActive (n : ℚ)
  /-- Go message of deleteStepsV2: a delete target must be given. -/
  | missingDeleteTarget
deriving DecidableEq, Repr

/-- UTF-8 encoding of one character, as byte values.  Go strings are
UTF-8 byte sequences; Go len and slicing act on bytes. -/
def charBytes (c : Char) : List Nat :=
  let n := c.toNat
  if n < 128 then [n]
  else if n < 2048 then [192 + n / 64, 128 + n % 64]
  else if n < 65536 then [224 + n / 4096, 128 + n / 64 % 64, 128 + n % 64]
  else [240 + n / 262144, 128 + n / 4096 % 64, 128 + n / 64 % 64, 128 + n % 64]

/-- UTF-8 byte sequence of a string (the Go string representation). -/
def utf8Bytes (s : String) : List Nat :=
  s.data.foldr (fun c acc => charBytes c ++ acc) []

/-- Summary preview of one completed step, translated from the
truncation in renderDecisionPoint: when Go len of the summary exceeds
100 the summary is cut to its first 100 bytes and an ellipsis is
appended.  Go len counts bytes and the slice acts on bytes, so the
result is a byte sequence (the cut can fall inside a multi-byte
character). -/
def summaryPreviewBytes (s : String) : List Nat :=
  let b := utf8Bytes s
  if 100 < b.length then b.take 100 ++ utf8Bytes "..." else b

/-- Line of the completed-work preview for one Complete step: number,
name, and the possibly truncated summary, or none when the summary is
empty (the Go loop prints the summary line only for a non-empty
summary). -/
structure CompletedEntry where
  number : ℚ
  name : String
  summaryLine : Option (List Nat)
deriving DecidableEq, Repr, Inhabited

/-- Line of the remaining-work preview for one Todo step. -/
structure PendingEntry where
  number : ℚ
  name : String
  input : String
deriving DecidableEq, Repr, Inhabited

/-- Structured content of the briefing printed by
renderDecisionPoint. -/
structure DecisionPoint where
  completedNumber : ℚ
  completedName : String
  completedSummary : String
  nextStep : Option ℚ
  completedPreview : List CompletedEntry
  remainingPreview : List PendingEntry
deriving DecidableEq, Repr, Inhabited

/-- Result of one tool invocation: an error (one of the
mcp.NewToolResultError sites) or a success; the success of
completeStepV2 carries the decision-point briefing content. -/
inductive TCResult where
  | err (e : TCErr)
  | ok
  | decision (d : DecisionPoint)
  /-- Marker for the one reachable case in updateStepsV2 where the Go
  slice expression for keptSteps is out of the list range (an empty
  step list, so the bound startIdx + 1 = 1 exceeds the length 0).  Go
  returns no value there: it panics when the slice capacity is 0, and
  otherwise reads a stale, previously deleted step back out of the
  spare capacity of the backing array.  That hidden capacity state is
  not part of a value-level model, so the case is marked explicitly
  instead of being given a fabricated value. -/
  | sliceOutOfRange
deriving DecidableEq, Repr

/-- Translation of renderDecisionPoint (the briefing built after a
completed step), keeping its data content: the completed step, the
first Todo step after it (the Go loop over indices beyond
completedIdx), the preview of all Complete steps with the 100-byte
summary truncation, and, exactly when a next Todo step exists, the
preview of all Todo steps. -/
def renderDecisionPoint (chain : TaskChainV2) (completedIdx : Nat) : DecisionPoint :=
  let completedStep := chain.Steps.getD completedIdx default
  let nextTodo := (chain.Steps.drop (completedIdx + 1)).find?
      (fun s => decide (s.Status = StepStatus.Todo))
  { completedNumber := completedStep.Number
    completedName := completedStep.Name
    completedSummary := completedStep.Summary
    nextStep := nextTodo.map Step.Number
    completedPreview := chain.Steps.filterMap (fun s =>
      if s.Status = StepStatus.Complete then
        some { number := s.Number, name := s.Name,
               summaryLine := if s.Summary = "" then none
                 else some (summaryPreviewBytes s.Summary) }
      else none)
    remainingPreview := if nextTodo.isSome then
        chain.Steps.filterMap (fun s =>
          if s.Status = StepStatus.Todo then
            some { number := s.Number, name := s.Name, input := s.Input }
          else none)
      else [] }

/-- First step whose Number equals n, together with its index (the Go
search loops exit at the first match). -/
def findStepIdx : List Step → ℚ → Option (Nat × Step)
  | [], _ => none
  | s :: rest, n =>
      if s.Number = n then some (0, s)
      else (findStepIdx rest n).map (fun p => (p.1 + 1, p.2))

/-- Replacement of the first step whose Number equals n (in Go the
operations mutate that step through the pointer obtained by the search
loop). -/
def setFirstMatching : List Step → ℚ → (Step → Step) → List Step
  | [], _, _ => []
  | s :: rest, n, f =>
      if s.Number = n then f s :: rest else s :: setFirstMatching rest n f

/-- Search-and-remove of the first step whose Number equals n (the
single-step delete loop of deleteStepsV2), returning the step and the
list without it. -/
def deleteStepLoop : List Step → ℚ → Option (Step × List Step)
  | [], _ => none
  | s :: rest, n =>
      if s.Number = n then some (s, rest)
      else (deleteStepLoop rest n).map (fun p => (p.1, s :: p.2))

/-- Steps created by initTaskChainV2 from a plan: the i-th entry
(0-based; the recursion carries i) becomes a Todo step numbered
i + 1. -/
def mkInitSteps : Nat → List PlanEntry → List Step
  | _, [] => []
  | i, p :: rest =>
      { Number := ((i + 1 : Nat) : ℚ), Name := p.name, Input := p.input,
        Status := StepStatus.Todo, Summary := "" } :: mkInitSteps (i + 1) rest

/-- Translation of startStepV2. -/
def startStepV2 (sm : SessionManager) (taskID : String) (stepNumber : ℚ) :
    TCResult × SessionManager :=
  if taskID = "" then (.err (.missingTaskID "start"), sm)
  else
    match lookupAssoc sm.TaskChainsV2 taskID with
    | none => (.err (.chainNotFound taskID), sm)
    | some chain =>
      match findStepIdx chain.Steps stepNumber with
      | none => (.err (.stepNotFound stepNumber), sm)
      | some (_, target) =>
        if target.Status ≠ StepStatus.Todo then
          (.err (.invalidStart stepNumber target.Status), sm)
        else
          let steps := setFirstMatching chain.Steps stepNumber
            (fun s => { s with Status := StepStatus.InProgress })
          let chain2 := { chain with Steps := steps, CurrentStep := stepNumber }
          (.ok, { sm with TaskChainsV2 := setAssoc sm.TaskChainsV2 taskID chain2 })

/-- Translation of initTaskChainV2: store a fresh chain under the
task_id (note: the Go code performs no check whether the task_id is
already present, so an existing chain is overwritten), then auto-start
step 1. -/
def initTaskChainV2 (sm : SessionManager) (taskID description : String)
    (plan : List PlanEntry) : TCResult × SessionManager :=
  if taskID = "" then (.err (.missingTaskID "step"), sm)
  else if plan = [] then (.err .emptyPlan, sm)
  else
    let chain : TaskChainV2 :=
      { TaskID := taskID, Description := description,
        Steps := mkInitSteps 0 plan, CurrentStep := 1, Status := "running" }
    startStepV2 { sm with TaskChainsV2 := setAssoc sm.TaskChainsV2 taskID chain }
      taskID 1

/-- Translation of completeStepV2: set the summary and the Complete
status on the first step matching stepNumber, then hand the mutated
chain and the step index to renderDecisionPoint. -/
def completeStepV2 (sm : SessionManager) (taskID : String) (stepNumber : ℚ)
    (summary : String) : TCResult × SessionManager :=
  if taskID = "" then (.err (.missingTaskID "complete"), sm)
  else if summary = "" then (.err .missingSummary, sm)
  else
    match lookupAssoc sm.TaskChainsV2 taskID with
    | none => (.err (.chainNotFound taskID), sm)
    | some chain =>
      match findStepIdx chain.Steps stepNumber with
      | none => (.err (.stepNotFound stepNumber), sm)
      | some (targetIdx, target) =>
        if target.Status ≠ StepStatus.InProgress then
          (.err (.invalidComplete stepNumber target.Status), sm)
        else
          let steps := setFirstMatching chain.Steps stepNumber
            (fun s => { s with Summary := summary, Status := StepStatus.Complete })
          let chain2 := { chain with Steps := steps }
          (.decision (renderDecisionPoint chain2 targetIdx),
           { sm with TaskChainsV2 := setAssoc sm.TaskChainsV2 taskID chain2 })

/-- Steps created by insertStepsV2: the k-th new entry (0-based; the
recursion carries k) becomes a Todo step numbered
after + (k + 1) / 10. -/
def mkInsertSteps (base : ℚ) : Nat → List PlanEntry → List Step
  | _, [] => []
  | k, p :: rest =>
      { Number := base + ((k + 1 : Nat) : ℚ) / 10, Name := p.name,
        Input := p.input, Status := StepStatus.Todo, Summary := "" }
        :: mkInsertSteps base (k + 1) rest

/-- Translation of insertStepsV2. -/
def insertStepsV2 (sm : SessionManager) (taskID : String) (after : ℚ)
    (insertPlan : List PlanEntry) : TCResult × SessionManager :=
  if taskID = "" then (.err (.missingTaskID "insert"), sm)
  else if insertPlan = [] then (.err .emptyInsertPlan, sm)
  else
    match lookupAssoc sm.TaskChainsV2 taskID with
    | none => (.err (.chainNotFound taskID), sm)
    | some chain =>
      match findStepIdx chain.Steps after with
      | none => (.err (.anchorNotFound after), sm)
      | some (anchorIdx, _) =>
        let insertIdx := anchorIdx + 1
        let newSteps := mkInsertSteps after 0 insertPlan
        let steps := chain.Steps.take insertIdx ++ newSteps
          ++ chain.Steps.drop insertIdx
        let chain2 := { chain with Steps := steps }
        (.ok, { sm with TaskChainsV2 := setAssoc sm.TaskChainsV2 taskID chain2 })

/-- Steps created by updateStepsV2: the k-th entry becomes a Todo step
numbered fromN + k. -/
def mkUpdateSteps (base : ℚ) : Nat → List PlanEntry → List Step
  | _, [] => []
  | k, p :: rest =>
      { Number := base + (k : ℚ), Name := p.name, Input := p.input,
        Status := StepStatus.Todo, Summary := "" } :: mkUpdateSteps base (k + 1) rest

/-- Translation of updateStepsV2.  Go initialises startIdx to 0 and
only overwrites it when a step matches fromN, so a missing anchor
silently falls back to position 0; everything after the kept prefix is
replaced by the new Todo steps.  The slice expression for keptSteps is
modelled as List.take exactly where its bound startIdx + 1 stays
within the list length — there the Go value semantics is List.take.
When the bound exceeds the length (reachable only with an empty step
list, e.g. after initialising one step, completing it and deleting
it), the Go behaviour depends on the hidden capacity of the slice
backing array — a runtime panic at capacity 0, or the resurrection of
a stale, previously deleted step otherwise — so that case is returned
as the explicit marker TCResult.sliceOutOfRange rather than as a
value. -/
def updateStepsV2 (sm : SessionManager) (taskID : String) (fromN : ℚ)
    (updatePlan : List PlanEntry) : TCResult × SessionManager :=
  if taskID = "" then (.err (.missingTaskID "update"), sm)
  else if updatePlan = [] then (.err .emptyUpdatePlan, sm)
  else
    match lookupAssoc sm.TaskChainsV2 taskID with
    | none => (.err (.chainNotFound taskID), sm)
    | some chain =>
      let startIdx := ((findStepIdx chain.Steps fromN).map Prod.fst).getD 0
      if startIdx + 1 ≤ chain.Steps.length then
        let keptSteps := chain.Steps.take (startIdx + 1)
        let chain2 := { chain with Steps := keptSteps ++ mkUpdateSteps fromN 0 updatePlan }
        (.ok, { sm with TaskChainsV2 := setAssoc sm.TaskChainsV2 taskID chain2 })
      else (.sliceOutOfRange, sm)

/-- Translation of deleteStepsV2.  With scope remaining it keeps
exactly the Complete and InProgress steps; with a positive numeric
target it removes the first step with that number unless that step is
InProgress.  Note that the status guard only protects InProgress
steps: a Complete step with a matching number is removed. -/
def deleteStepsV2 (sm : SessionManager) (taskID : String) (stepToDelete : ℚ)
    (deleteScope : String) : TCResult × SessionManager :=
  if taskID = "" then (.err (.missingTaskID "delete"), sm)
  else
    match lookupAssoc sm.TaskChainsV2 taskID with
    | none => (.err (.chainNotFound taskID), sm)
    | some chain =>
      if deleteScope = "remaining" then
        let newSteps := chain.Steps.filter (fun s =>
          decide (s.Status = StepStatus.Complete)
            || decide (s.Status = StepStatus.InProgress))
        let chain2 := { chain with Steps := newSteps }
        (.ok, { sm with TaskChainsV2 := setAssoc sm.TaskChainsV2 taskID chain2 })
      else if 0 < stepToDelete then
        match deleteStepLoop chain.Steps stepToDelete with
        | none => (.err (.stepNotFound stepToDelete), sm)
        | some (target, rest) =>
          if target.Status = StepStatus.InProgress then
            (.err (.cannotDeleteActive stepToDelete), sm)
          else
            let chain2 := { chain with Steps := rest }
            (.ok, { sm with TaskChainsV2 := setAssoc sm.TaskChainsV2 taskID chain2 })
      else (.err .missingDeleteTarget, sm)

/-- Translation of finishChain (the finish mode).  It reads and writes
the legacy map SessionManager.TaskChains, not the V2 map, so a V2
chain is never touched by it, and it succeeds whether or not any chain
exists under the task_id. -/
def finishChain (sm : SessionManager) (taskID : String) :
    TCResult × SessionManager :=
  if taskID = "" then (.err (.missingTaskID "finish"), sm)
  else
    match lookupAssoc sm.TaskChains taskID with
    | some chain =>
        let chain2 := { chain with Status := "finished" }
        (.ok, { sm with TaskChains := setAssoc sm.TaskChains taskID chain2 })
    | none => (.ok, sm)

/-- Numbers of the steps of the V2 chain stored under the given id
(empty when no chain is stored). -/
def chainNumbers (sm : SessionManager) (id : String) : List ℚ :=
  ((lookupAssoc sm.TaskChainsV2 id).map (fun c => c.Steps.map Step.Number)).getD []

/-- Statuses of the steps of the V2 chain stored under the given id
(empty when no chain is stored). -/
def chainStatuses (sm : SessionManager) (id : String) : List StepStatus :=
  ((lookupAssoc sm.TaskChainsV2 id).map (fun c => c.Steps.map Step.Status)).getD []

/-- The storage invariant claimed by the specification for one chain:
the step numbers are strictly ascending in storage order (which also
makes them pairwise distinct). -/
def chainOrdered (c : TaskChainV2) : Prop :=
  List.Pairwise (· < ·) (c.Steps.map Step.Number)

/-- The storage invariant at one key of the store; vacuous when no
chain is stored there. -/
def chainOrderedAt (sm : SessionManager) (id : String) : Prop :=
  List.Pairwise (· < ·) (chainNumbers sm id)

/-- Rank of a status along the lifecycle Todo, InProgress, Complete. -/
def statusRank : StepStatus → Nat
  | .Todo => 0
  | .InProgress => 1
  | .Complete => 2

/-- The step after an operation descends from the step before it: same
number, name and input, and a status that has not moved backwards
along the lifecycle. -/
def stepFrom (s t : Step) : Prop :=
  s.Number = t.Number ∧ s.Name = t.Name ∧ s.Input = t.Input ∧
    statusRank s.Status ≤ statusRank t.Status

/-- No step of the second chain has a reverted status: each one either
is a fresh Todo step or descends from a step of the first chain with
an equal or advanced status. -/
def noRevert (c c2 : TaskChainV2) : Prop :=
  ∀ t ∈ c2.Steps, t.Status = StepStatus.Todo ∨ ∃ s ∈ c.Steps, stepFrom s t

instance (s t : Step) : Decidable (stepFrom s t) := by
  unfold stepFrom; infer_instance

instance (c c2 : TaskChainV2) : Decidable (noRevert c c2) := by
  unfold noRevert; infer_instance

/-- The empty session state. -/
def sm0 : SessionManager := { TaskChains := [], TaskChainsV2 := [] }

/-- Session state after initialising a one-step chain T (its only step
is number 1 and InProgress by the auto-start). -/
def smA : SessionManager := (initTaskChainV2 sm0 "T" "demo" [⟨"a", ""⟩]).2

/-- Session state after initialising a two-step chain T (step 1
InProgress by the auto-start, step 2 Todo). -/
def smAB : SessionManager :=
  (initTaskChainV2 sm0 "T" "demo" [⟨"a", ""⟩, ⟨"b", ""⟩]).2

/-- Session state in which the single step of chain T has been
completed (status Complete). -/
def smAC : SessionManager := (completeStepV2 smA "T" 1 "done").2

/-! ## Association-list lemmas -/

theorem lookup_setAssoc_self {α : Type} (l : List (String × α)) (id : String) (c : α) :
    lookupAssoc (setAssoc l id c) id = some c := by
  induction l with
  | nil => simp [setAssoc, lookupAssoc]
  | cons hd tl ih =>
    obtain ⟨k, v⟩ := hd
    by_cases h : k = id
    · simp [setAssoc, lookupAssoc, h]
    · simp [setAssoc, lookupAssoc, h, ih]

theorem lookup_setAssoc_ne {α : Type} (l : List (String × α)) (id id2 : String)
    (c : α) (h : id2 ≠ id) :
    lookupAssoc (setAssoc l id c) id2 = lookupAssoc l id2 := by
  induction l with
  | nil => simp [setAssoc, lookupAssoc, Ne.symm h]
  | cons hd tl ih =>
    obtain ⟨k, v⟩ := hd
    by_cases hk : k = id
    · subst hk
      simp [setAssoc, lookupAssoc, Ne.symm h]
    · by_cases hk2 : k = id2 <;> simp [setAssoc, lookupAssoc, hk, hk2, h, ih]

theorem setAssoc_setAssoc_self {α : Type} (l : List (String × α)) (id : String)
    (c d : α) : setAssoc (setAssoc l id c) id d = setAssoc l id d := by
  induction l with
  | nil => simp [setAssoc]
  | cons hd tl ih =>
    obtain ⟨k, v⟩ := hd
    by_cases h : k = id <;> simp [setAssoc, h, ih]

/-! ## Step-search lemmas -/

theorem findStepIdx_none_iff {l : List Step} {n : ℚ} :
    findStepIdx l n = none ↔ ∀ s ∈ l, s.Number ≠ n := by
  induction l with
  | nil => simp [findStepIdx]
  | cons s rest ih =>
    by_cases h : s.Number = n
    · simp [findStepIdx, h]
    · simp [findStepIdx, h, ih]

theorem findStepIdx_some {l : List Step} {n : ℚ} {i : Nat} {t : Step} :
    findStepIdx l n = some (i, t) →
      i < l.length ∧ l.getD i default = t ∧ t.Number = n ∧ t ∈ l := by
  induction l generalizing i with
  | nil => simp [findStepIdx]
  | cons s rest ih =>
    intro h
    rw [findStepIdx] at h
    by_cases hs : s.Number = n
    · rw [if_pos hs] at h
      injection h with h2
      obtain ⟨hi, ht⟩ := Prod.mk.injEq .. ▸ h2
      subst hi; subst ht
      exact ⟨by simp, by simp, hs, by simp⟩
    · rw [if_neg hs] at h
      rcases hrest : findStepIdx rest n with _ | p
      · rw [hrest] at h; simp at h
      · rw [hrest] at h
        obtain ⟨p1, p2⟩ := p
        simp only [Option.map_some'] at h
        injection h with h2
        obtain ⟨hi, ht⟩ := Prod.mk.injEq .. ▸ h2
        subst hi; subst ht
        obtain ⟨h1, h2, h3, h4⟩ := ih hrest
        exact ⟨by simpa using h1, by simpa using h2, h3, by simp [h4]⟩

theorem setFirstMatching_of_none {l : List Step} {n : ℚ} (f : Step → Step)
    (h : findStepIdx l n = none) : setFirstMatching l n f = l := by
  induction l with
  | nil => simp [setFirstMatching]
  | cons s rest ih =>
    rw [findStepIdx] at h
    by_cases hs : s.Number = n
    · rw [if_pos hs] at h; simp at h
    · rw [if_neg hs] at h
      rw [setFirstMatching, if_neg hs, ih (by simpa using h)]

theorem setFirstMatching_eq {l : List Step} {n : ℚ} {i : Nat} {t : Step}
    (f : Step → Step) (h : findStepIdx l n = some (i, t)) :
    setFirstMatching l n f = l.take i ++ f t :: l.drop (i + 1) := by
  induction l generalizing i with
  | nil => simp [findStepIdx] at h
  | cons s rest ih =>
    rw [findStepIdx] at h
    by_cases hs : s.Number = n
    · rw [if_pos hs] at h
      injection h with h2
      obtain ⟨hi, ht⟩ := Prod.mk.injEq .. ▸ h2
      subst hi; subst ht
      simp [setFirstMatching, hs]
    · rw [if_neg hs] at h
      rcases hrest : findStepIdx rest n with _ | p
      · rw [hrest] at h; simp at h
      · rw [hrest] at h
        obtain ⟨p1, p2⟩ := p
        simp only [Option.map_some'] at h
        injection h with h2
        obtain ⟨hi, ht⟩ := Prod.mk.injEq .. ▸ h2
        subst hi; subst ht
        simp [setFirstMatching, hs, ih hrest]

theorem map_number_setFirstMatching (l : List Step) (n : ℚ) (f : Step → Step)
    (hf : ∀ s, (f s).Number = s.Number) :
    (setFirstMatching l n f).map Step.Number = l.map Step.Number := by
  induction l with
  | nil => simp [setFirstMatching]
  | cons s rest ih =>
    by_cases hs : s.Number = n
    · simp [setFirstMatching, hs, hf]
    · simp [setFirstMatching, hs, ih]

theorem deleteStepLoop_none_iff {l : List Step} {n : ℚ} :
    deleteStepLoop l n = none ↔ ∀ s ∈ l, s.Number ≠ n := by
  induction l with
  | nil => simp [deleteStepLoop]
  | cons s rest ih =>
    by_cases h : s.Number = n
    · simp [deleteStepLoop, h]
    · simp [deleteStepLoop, h, ih]

theorem deleteStepLoop_some {l : List Step} {n : ℚ} {t : Step} {rest : List Step} :
    deleteStepLoop l n = some (t, rest) →
      t ∈ l ∧ t.Number = n ∧ rest.Sublist l ∧ ∀ x ∈ l, x = t ∨ x ∈ rest := by
  induction l generalizing rest with
  | nil => simp [deleteStepLoop]
  | cons s tl ih =>
    intro h
    rw [deleteStepLoop] at h
    by_cases hs : s.Number = n
    · rw [if_pos hs] at h
      injection h with h2
      obtain ⟨ht, hr⟩ := Prod.mk.injEq .. ▸ h2
      subst ht; subst hr
      refine ⟨by simp, hs, (List.Sublist.refl tl).cons s, ?_⟩
      intro x hx
      rcases List.mem_cons.mp hx with hx | hx
      · exact Or.inl hx
      · exact Or.inr hx
    · rw [if_neg hs] at h
      rcases hrest : deleteStepLoop tl n with _ | p
      · rw [hrest] at h; simp at h
      · rw [hrest] at h
        obtain ⟨p1, p2⟩ := p
        simp only [Option.map_some'] at h
        injection h with h2
        obtain ⟨ht, hr⟩ := Prod.mk.injEq .. ▸ h2
        subst ht; subst hr
        obtain ⟨h1, h2, h3, h4⟩ := ih hrest
        refine ⟨by simp [h1], h2, h3.cons₂ s, ?_⟩
        intro x hx
        rcases List.mem_cons.mp hx with hx | hx
        · exact Or.inr (by simp [hx])
        · rcases h4 x hx with hx2 | hx2
          · exact Or.inl hx2
          · exact Or.inr (by simp [hx2])

/-! ## Lemmas about the step lists built by the operations -/

theorem mkInitSteps_length (j : Nat) (plan : List PlanEntry) :
    (mkInitSteps j plan).length = plan.length := by
  induction plan generalizing j with
  | nil => simp [mkInitSteps]
  | cons p rest ih => simp [mkInitSteps, ih]

theorem mkInitSteps_getD (plan : List PlanEntry) (j i : Nat) (h : i < plan.length) :
    (mkInitSteps j plan).getD i default =
      { Number := ((j + i + 1 : Nat) : ℚ), Name := (plan.getD i default).name,
        Input := (plan.getD i default).input, Status := StepStatus.Todo,
        Summary := "" } := by
  induction plan generalizing j i with
  | nil => simp at h
  | cons p rest ih =>
    cases i with
    | zero => simp [mkInitSteps]
    | succ i2 =>
      have h2 : i2 < rest.length := by simpa using h
      have := ih (j + 1) i2 h2
      simp only [mkInitSteps, List.getD_cons_succ, this]
      have harith : (j + 1) + i2 + 1 = j + (i2 + 1) + 1 := by omega
      rw [harith]

theorem mkInitSteps_number_gt (j : Nat) (plan : List PlanEntry) :
    ∀ s ∈ mkInitSteps j plan, (j : ℚ) < s.Number := by
  induction plan generalizing j with
  | nil => simp [mkInitSteps]
  | cons p rest ih =>
    intro s hs
    rcases List.mem_cons.mp hs with h | h
    · subst h; push_cast; linarith
    · have := ih (j + 1) s h
      push_cast at this ⊢
      linarith

theorem mkInitSteps_sorted (j : Nat) (plan : List PlanEntry) :
    List.Pairwise (· < ·) ((mkInitSteps j plan).map Step.Number) := by
  induction plan generalizing j with
  | nil => simp [mkInitSteps]
  | cons p rest ih =>
    simp only [mkInitSteps, List.map_cons, List.pairwise_cons]
    refine ⟨?_, ih (j + 1)⟩
    intro b hb
    obtain ⟨s, hs, rfl⟩ := List.mem_map.mp hb
    have := mkInitSteps_number_gt (j + 1) rest s hs
    push_cast at this ⊢
    linarith

theorem mkInitSteps_status (j : Nat) (plan : List PlanEntry) :
    ∀ s ∈ mkInitSteps j plan, s.Status = StepStatus.Todo := by
  induction plan generalizing j with
  | nil => simp [mkInitSteps]
  | cons p rest ih =>
    intro s hs
    rcases List.mem_cons.mp hs with h | h
    · subst h; rfl
    · exact ih (j + 1) s h

theorem mkInsertSteps_length (base : ℚ) (k : Nat) (plan : List PlanEntry) :
    (mkInsertSteps base k plan).length = plan.length := by
  induction plan generalizing k with
  | nil => simp [mkInsertSteps]
  | cons p rest ih => simp [mkInsertSteps, ih]

theorem mkInsertSteps_getD (base : ℚ) (plan : List PlanEntry) (k i : Nat)
    (h : i < plan.length) :
    (mkInsertSteps base k plan).getD i default =
      { Number := base + ((k + i + 1 : Nat) : ℚ) / 10,
        Name := (plan.getD i default).name,
        Input := (plan.getD i default).input, Status := StepStatus.Todo,
        Summary := "" } := by
  induction plan generalizing k i with
  | nil => simp at h
  | cons p rest ih =>
    cases i with
    | zero => simp [mkInsertSteps]
    | succ i2 =>
      have h2 : i2 < rest.length := by simpa using h
      have := ih (k + 1) i2 h2
      simp only [mkInsertSteps, List.getD_cons_succ, this]
      have harith : (k + 1) + i2 + 1 = k + (i2 + 1) + 1 := by omega
      rw [harith]

theorem mkInsertSteps_status (base : ℚ) (k : Nat) (plan : List PlanEntry) :
    ∀ s ∈ mkInsertSteps base k plan, s.Status = StepStatus.Todo := by
  induction plan generalizing k with
  | nil => simp [mkInsertSteps]
  | cons p rest ih =>
    intro s hs
    rcases List.mem_cons.mp hs with h | h
    · subst h; rfl
    · exact ih (k + 1) s h

theorem mkInsertSteps_number_gt (base : ℚ) (k : Nat) (plan : List PlanEntry) :
    ∀ s ∈ mkInsertSteps base k plan, base + (k : ℚ) / 10 < s.Number := by
  induction plan generalizing k with
  | nil => simp [mkInsertSteps]
  | cons p rest ih =>
    intro s hs
    rcases List.mem_cons.mp hs with h | h
    · subst h
      show base + (k : ℚ) / 10 < base + ((k + 1 : Nat) : ℚ) / 10
      push_cast
      linarith
    · have := ih (k + 1) s h
      push_cast at this ⊢
      linarith

theorem mkInsertSteps_number_le (base : ℚ) (k : Nat) (plan : List PlanEntry) :
    ∀ s ∈ mkInsertSteps base k plan,
      s.Number ≤ base + ((k + plan.length : Nat) : ℚ) / 10 := by
  induction plan generalizing k with
  | nil => simp [mkInsertSteps]
  | cons p rest ih =>
    intro s hs
    rcases List.mem_cons.mp hs with h | h
    · subst h
      show base + ((k + 1 : Nat) : ℚ) / 10 ≤ base + ((k + (p :: rest).length : Nat) : ℚ) / 10
      simp only [List.length_cons]
      push_cast
      linarith [(Nat.cast_nonneg rest.length : (0 : ℚ) ≤ (rest.length : ℚ))]
    · have := ih (k + 1) s h
      simp only [List.length_cons]
      push_cast at this ⊢
      linarith

theorem mkInsertSteps_sorted (base : ℚ) (k : Nat) (plan : List PlanEntry) :
    List.Pairwise (· < ·) ((mkInsertSteps base k plan).map Step.Number) := by
  induction plan generalizing k with
  | nil => simp [mkInsertSteps]
  | cons p rest ih =>
    simp only [mkInsertSteps, List.map_cons, List.pairwise_cons]
    refine ⟨?_, ih (k + 1)⟩
    intro b hb
    obtain ⟨s, hs, rfl⟩ := List.mem_map.mp hb
    have := mkInsertSteps_number_gt base (k + 1) rest s hs
    push_cast at this ⊢
    linarith

theorem mkUpdateSteps_length (base : ℚ) (k : Nat) (plan : List PlanEntry) :
    (mkUpdateSteps base k plan).length = plan.length := by
  induction plan generalizing k with
  | nil => simp [mkUpdateSteps]
  | cons p rest ih => simp [mkUpdateSteps, ih]

theorem mkUpdateSteps_status (base : ℚ) (k : Nat) (plan : List PlanEntry) :
    ∀ s ∈ mkUpdateSteps base k plan, s.Status = StepStatus.Todo := by
  induction plan generalizing k with
  | nil => simp [mkUpdateSteps]
  | cons p rest ih =>
    intro s hs
    rcases List.mem_cons.mp hs with h | h
    · subst h; rfl
    · exact ih (k + 1) s h

/-! ## Splice lemmas: a list with one element replaced in place -/

theorem length_splice {l : List Step} {i : Nat} (x : Step) (hi : i < l.length) :
    (l.take i ++ x :: l.drop (i + 1)).length = l.length := by
  simp only [List.length_append, List.length_take, List.length_cons,
    List.length_drop]
  omega

theorem getD_splice_self {l : List Step} {i : Nat} (x d : Step)
    (hi : i < l.length) :
    (l.take i ++ x :: l.drop (i + 1)).getD i d = x := by
  induction l generalizing i with
  | nil => simp at hi
  | cons a tl ih =>
    cases i with
    | zero => simp
    | succ i2 =>
      have h2 : i2 < tl.length := by simpa using hi
      simpa using ih h2

theorem getD_splice_ne {l : List Step} {i j : Nat} (x d : Step)
    (hi : i < l.length) (hne : j ≠ i) :
    (l.take i ++ x :: l.drop (i + 1)).getD j d = l.getD j d := by
  induction l generalizing i j with
  | nil => simp at hi
  | cons a tl ih =>
    cases i with
    | zero =>
      cases j with
      | zero => exact absurd rfl hne
      | succ j2 => simp
    | succ i2 =>
      have h2 : i2 < tl.length := by simpa using hi
      cases j with
      | zero => simp
      | succ j2 =>
        have hne2 : j2 ≠ i2 := fun hh => hne (by omega)
        have := ih h2 hne2
        simpa using this

theorem mem_splice {l : List Step} {i : Nat} {x s : Step}
    (hs : s ∈ l.take i ++ x :: l.drop (i + 1)) : s = x ∨ s ∈ l := by
  rcases List.mem_append.mp hs with h | h
  · exact Or.inr (List.mem_of_mem_take h)
  · rcases List.mem_cons.mp h with h | h
    · exact Or.inl h
    · exact Or.inr (List.mem_of_mem_drop h)

/-! ## Characterisation of each operation branch -/

theorem startStepV2_ok {sm : SessionManager} {taskID : String} {n : ℚ}
    {chain : TaskChainV2} {i : Nat} {target : Step}
    (ht : taskID ≠ "") (hc : lookupAssoc sm.TaskChainsV2 taskID = some chain)
    (hf : findStepIdx chain.Steps n = some (i, target))
    (hs : target.Status = StepStatus.Todo) :
    startStepV2 sm taskID n =
      (.ok, { sm with TaskChainsV2 := setAssoc sm.TaskChainsV2 taskID { chain with Steps := chain.Steps.take i ++ { target with Status := StepStatus.InProgress } :: chain.Steps.drop (i + 1), CurrentStep := n } }) := by
  simp [startStepV2, ht, hc, hf, hs,
    setFirstMatching_eq (fun s => { s with Status := StepStatus.InProgress }) hf]

theorem startStepV2_err_notTodo {sm : SessionManager} {taskID : String} {n : ℚ}
    {chain : TaskChainV2} {i : Nat} {target : Step}
    (ht : taskID ≠ "") (hc : lookupAssoc sm.TaskChainsV2 taskID = some chain)
    (hf : findStepIdx chain.Steps n = some (i, target))
    (hs : target.Status ≠ StepStatus.Todo) :
    startStepV2 sm taskID n = (.err (.invalidStart n target.Status), sm) := by
  simp [startStepV2, ht, hc, hf, hs]

theorem startStepV2_err_notFound {sm : SessionManager} {taskID : String} {n : ℚ}
    {chain : TaskChainV2}
    (ht : taskID ≠ "") (hc : lookupAssoc sm.TaskChainsV2 taskID = some chain)
    (hf : findStepIdx chain.Steps n = none) :
    startStepV2 sm taskID n = (.err (.stepNotFound n), sm) := by
  simp [startStepV2, ht, hc, hf]

theorem startStepV2_err_noChain {sm : SessionManager} {taskID : String} {n : ℚ}
    (ht : taskID ≠ "") (hc : lookupAssoc sm.TaskChainsV2 taskID = none) :
    startStepV2 sm taskID n = (.err (.chainNotFound taskID), sm) := by
  simp [startStepV2, ht, hc]

/-- The step list of a freshly initialised chain after the auto-start
of step 1: head InProgress, tail the Todo steps numbered from 2 on. -/
def startedInitSteps : List PlanEntry → List Step
  | [] => []
  | p :: rest =>
      { Number := 1, Name := p.name, Input := p.input,
        Status := StepStatus.InProgress, Summary := "" } :: mkInitSteps 1 rest

theorem initTaskChainV2_ok {sm : SessionManager} {taskID description : String}
    {plan : List PlanEntry} (ht : taskID ≠ "") (hp : plan ≠ []) :
    initTaskChainV2 sm taskID description plan =
      (.ok, { sm with TaskChainsV2 := setAssoc sm.TaskChainsV2 taskID { TaskID := taskID, Description := description, Steps := startedInitSteps plan, CurrentStep := 1, Status := "running" } }) := by
  rcases plan with _ | ⟨p, rest⟩
  · exact absurd rfl hp
  · have hone : ((0 + 1 : Nat) : ℚ) = 1 := by norm_num
    have hf : findStepIdx (mkInitSteps 0 (p :: rest)) 1 = some (0, { Number := ((0 + 1 : Nat) : ℚ), Name := p.name, Input := p.input, Status := StepStatus.Todo, Summary := "" }) := by
      rw [mkInitSteps, findStepIdx, if_pos hone]
    rw [initTaskChainV2, if_neg ht, if_neg hp]
    rw [startStepV2_ok ht (lookup_setAssoc_self ..) hf rfl]
    simp [setAssoc_setAssoc_self, startedInitSteps, mkInitSteps, hone]

theorem completeStepV2_ok {sm : SessionManager} {taskID : String} {n : ℚ}
    {summary : String} {chain : TaskChainV2} {i : Nat} {target : Step}
    (ht : taskID ≠ "") (hsum : summary ≠ "")
    (hc : lookupAssoc sm.TaskChainsV2 taskID = some chain)
    (hf : findStepIdx chain.Steps n = some (i, target))
    (hs : target.Status = StepStatus.InProgress) :
    completeStepV2 sm taskID n summary =
      (.decision (renderDecisionPoint { chain with Steps := chain.Steps.take i ++ { target with Summary := summary, Status := StepStatus.Complete } :: chain.Steps.drop (i + 1) } i), { sm with TaskChainsV2 := setAssoc sm.TaskChainsV2 taskID { chain with Steps := chain.Steps.take i ++ { target with Summary := summary, Status := StepStatus.Complete } :: chain.Steps.drop (i + 1) } }) := by
  simp [completeStepV2, ht, hsum, hc, hf, hs,
    setFirstMatching_eq
      (fun s => { s with Summary := summary, Status := StepStatus.Complete }) hf]

theorem completeStepV2_err_notInProgress {sm : SessionManager} {taskID : String}
    {n : ℚ} {summary : String} {chain : TaskChainV2} {i : Nat} {target : Step}
    (ht : taskID ≠ "") (hsum : summary ≠ "")
    (hc : lookupAssoc sm.TaskChainsV2 taskID = some chain)
    (hf : findStepIdx chain.Steps n = some (i, target))
    (hs : target.Status ≠ StepStatus.InProgress) :
    completeStepV2 sm taskID n summary
      = (.err (.invalidComplete n target.Status), sm) := by
  simp [completeStepV2, ht, hsum, hc, hf, hs]

theorem insertStepsV2_ok {sm : SessionManager} {taskID : String} {after : ℚ}
    {insertPlan : List PlanEntry} {chain : TaskChainV2} {i : Nat} {anchor : Step}
    (ht : taskID ≠ "") (hp : insertPlan ≠ [])
    (hc : lookupAssoc sm.TaskChainsV2 taskID = some chain)
    (hf : findStepIdx chain.Steps after = some (i, anchor)) :
    insertStepsV2 sm taskID after insertPlan =
      (.ok, { sm with TaskChainsV2 := setAssoc sm.TaskChainsV2 taskID { chain with Steps := chain.Steps.take (i + 1) ++ mkInsertSteps after 0 insertPlan ++ chain.Steps.drop (i + 1) } }) := by
  simp [insertStepsV2, ht, hp, hc, hf]

theorem insertStepsV2_err_anchor {sm : SessionManager} {taskID : String}
    {after : ℚ} {insertPlan : List PlanEntry} {chain : TaskChainV2}
    (ht : taskID ≠ "") (hp : insertPlan ≠ [])
    (hc : lookupAssoc sm.TaskChainsV2 taskID = some chain)
    (hf : findStepIdx chain.Steps after = none) :
    insertStepsV2 sm taskID after insertPlan
      = (.err (.anchorNotFound after), sm) := by
  simp [insertStepsV2, ht, hp, hc, hf]

theorem updateStepsV2_ok {sm : SessionManager} {taskID : String} {fromN : ℚ}
    {updatePlan : List PlanEntry} {chain : TaskChainV2}
    (ht : taskID ≠ "") (hp : updatePlan ≠ [])
    (hc : lookupAssoc sm.TaskChainsV2 taskID = some chain)
    (hlen : ((findStepIdx chain.Steps fromN).map Prod.fst).getD 0 + 1
      ≤ chain.Steps.length) :
    updateStepsV2 sm taskID fromN updatePlan =
      (.ok, { sm with TaskChainsV2 := setAssoc sm.TaskChainsV2 taskID { chain with Steps := chain.Steps.take (((findStepIdx chain.Steps fromN).map Prod.fst).getD 0 + 1) ++ mkUpdateSteps fromN 0 updatePlan } }) := by
  simp [updateStepsV2, ht, hp, hc, hlen]

theorem updateStepsV2_oob {sm : SessionManager} {taskID : String} {fromN : ℚ}
    {updatePlan : List PlanEntry} {chain : TaskChainV2}
    (ht : taskID ≠ "") (hp : updatePlan ≠ [])
    (hc : lookupAssoc sm.TaskChainsV2 taskID = some chain)
    (hlen : ¬ (((findStepIdx chain.Steps fromN).map Prod.fst).getD 0 + 1
      ≤ chain.Steps.length)) :
    updateStepsV2 sm taskID fromN updatePlan = (.sliceOutOfRange, sm) := by
  simp [updateStepsV2, ht, hp, hc, hlen]

theorem update_slice_in_range {chain : TaskChainV2} {fromN : ℚ}
    (hne : chain.Steps ≠ []) :
    ((findStepIdx chain.Steps fromN).map Prod.fst).getD 0 + 1
      ≤ chain.Steps.length := by
  have hlen : 0 < chain.Steps.length := List.length_pos.mpr hne
  rcases hf : findStepIdx chain.Steps fromN with _ | ⟨i, t⟩
  · simp only [Option.map_none', Option.getD_none]
    omega
  · have hi := (findStepIdx_some hf).1
    simp only [Option.map_some', Option.getD_some]
    omega

theorem deleteStepsV2_ok_remaining {sm : SessionManager} {taskID : String}
    {n : ℚ} {chain : TaskChainV2}
    (ht : taskID ≠ "") (hc : lookupAssoc sm.TaskChainsV2 taskID = some chain) :
    deleteStepsV2 sm taskID n "remaining" =
      (.ok, { sm with TaskChainsV2 := setAssoc sm.TaskChainsV2 taskID { chain with Steps := chain.Steps.filter (fun s => decide (s.Status = StepStatus.Complete) || decide (s.Status = StepStatus.InProgress)) } }) := by
  simp [deleteStepsV2, ht, hc]

theorem deleteStepsV2_ok_single {sm : SessionManager} {taskID : String}
    {n : ℚ} {scope : String} {chain : TaskChainV2} {target : Step}
    {rest : List Step}
    (ht : taskID ≠ "") (hscope : scope ≠ "remaining") (hn : 0 < n)
    (hc : lookupAssoc sm.TaskChainsV2 taskID = some chain)
    (hf : deleteStepLoop chain.Steps n = some (target, rest))
    (hs : target.Status ≠ StepStatus.InProgress) :
    deleteStepsV2 sm taskID n scope =
      (.ok, { sm with TaskChainsV2 := setAssoc sm.TaskChainsV2 taskID { chain with Steps := rest } }) := by
  simp [deleteStepsV2, ht, hscope, hn, hc, hf, hs]

theorem deleteStepsV2_err_active {sm : SessionManager} {taskID : String}
    {n : ℚ} {scope : String} {chain : TaskChainV2} {target : Step}
    {rest : List Step}
    (ht : taskID ≠ "") (hscope : scope ≠ "remaining") (hn : 0 < n)
    (hc : lookupAssoc sm.TaskChainsV2 taskID = some chain)
    (hf : deleteStepLoop chain.Steps n = some (target, rest))
    (hs : target.Status = StepStatus.InProgress) :
    deleteStepsV2 sm taskID n scope = (.err (.cannotDeleteActive n), sm) := by
  simp [deleteStepsV2, ht, hscope, hn, hc, hf, hs]

theorem deleteStepsV2_err_notFound {sm : SessionManager} {taskID : String}
    {n : ℚ} {scope : String} {chain : TaskChainV2}
    (ht : taskID ≠ "") (hscope : scope ≠ "remaining") (hn : 0 < n)
    (hc : lookupAssoc sm.TaskChainsV2 taskID = some chain)
    (hf : deleteStepLoop chain.Steps n = none) :
    deleteStepsV2 sm taskID n scope = (.err (.stepNotFound n), sm) := by
  simp [deleteStepsV2, ht, hscope, hn, hc, hf]

theorem finishChain_v2_untouched (sm : SessionManager) (taskID : String) :
    (finishChain sm taskID).2.TaskChainsV2 = sm.TaskChainsV2 := by
  unfold finishChain
  by_cases ht : taskID = ""
  · simp [ht]
  · rcases hc : lookupAssoc sm.TaskChains taskID with _ | chain <;> simp [ht, hc]

theorem finishChain_ok {sm : SessionManager} {taskID : String}
    (ht : taskID ≠ "") : (finishChain sm taskID).1 = .ok := by
  unfold finishChain
  rcases hc : lookupAssoc sm.TaskChains taskID with _ | chain <;> simp [ht, hc]

theorem finishChain_v1_some {sm : SessionManager} {taskID : String}
    {c : TaskChain} (ht : taskID ≠ "")
    (hc : lookupAssoc sm.TaskChains taskID = some c) :
    (finishChain sm taskID).2.TaskChains
      = setAssoc sm.TaskChains taskID { c with Status := "finished" } := by
  simp [finishChain, ht, hc]

theorem finishChain_v1_none {sm : SessionManager} {taskID : String}
    (hc : lookupAssoc sm.TaskChains taskID = none) :
    (finishChain sm taskID).2 = sm := by
  unfold finishChain
  by_cases ht : taskID = "" <;> simp [ht, hc]

/-! ## Error results leave the session state unchanged -/

theorem startStepV2_err_state {sm : SessionManager} {taskID : String} {n : ℚ}
    {e : TCErr} (h : (startStepV2 sm taskID n).1 = .err e) :
    (startStepV2 sm taskID n).2 = sm := by
  by_cases ht : taskID = ""
  · simp [startStepV2, ht]
  · rcases hc : lookupAssoc sm.TaskChainsV2 taskID with _ | chain
    · simp [startStepV2, ht, hc]
    · rcases hf : findStepIdx chain.Steps n with _ | ⟨i, target⟩
      · simp [startStepV2, ht, hc, hf]
      · by_cases hs : target.Status = StepStatus.Todo
        · rw [startStepV2_ok ht hc hf hs] at h
          simp at h
        · rw [startStepV2_err_notTodo ht hc hf hs]

theorem initTaskChainV2_err_state {sm : SessionManager}
    {taskID description : String} {plan : List PlanEntry} {e : TCErr}
    (h : (initTaskChainV2 sm taskID description plan).1 = .err e) :
    (initTaskChainV2 sm taskID description plan).2 = sm := by
  by_cases ht : taskID = ""
  · simp [initTaskChainV2, ht]
  · by_cases hp : plan = []
    · simp [initTaskChainV2, ht, hp]
    · rw [initTaskChainV2_ok ht hp] at h
      simp at h

theorem completeStepV2_err_state {sm : SessionManager} {taskID : String}
    {n : ℚ} {summary : String} {e : TCErr}
    (h : (completeStepV2 sm taskID n summary).1 = .err e) :
    (completeStepV2 sm taskID n summary).2 = sm := by
  by_cases ht : taskID = ""
  · simp [completeStepV2, ht]
  · by_cases hsum : summary = ""
    · simp [completeStepV2, ht, hsum]
    · rcases hc : lookupAssoc sm.TaskChainsV2 taskID with _ | chain
      · simp [completeStepV2, ht, hsum, hc]
      · rcases hf : findStepIdx chain.Steps n with _ | ⟨i, target⟩
        · simp [completeStepV2, ht, hsum, hc, hf]
        · by_cases hs : target.Status = StepStatus.InProgress
          · rw [completeStepV2_ok ht hsum hc hf hs] at h
            simp at h
          · rw [completeStepV2_err_notInProgress ht hsum hc hf hs]

theorem insertStepsV2_err_state {sm : SessionManager} {taskID : String}
    {after : ℚ} {insertPlan : List PlanEntry} {e : TCErr}
    (h : (insertStepsV2 sm taskID after insertPlan).1 = .err e) :
    (insertStepsV2 sm taskID after insertPlan).2 = sm := by
  by_cases ht : taskID = ""
  · simp [insertStepsV2, ht]
  · by_cases hp : insertPlan = []
    · simp [insertStepsV2, ht, hp]
    · rcases hc : lookupAssoc sm.TaskChainsV2 taskID with _ | chain
      · simp [insertStepsV2, ht, hp, hc]
      · rcases hf : findStepIdx chain.Steps after with _ | ⟨i, anchor⟩
        · rw [insertStepsV2_err_anchor ht hp hc hf]
        · rw [insertStepsV2_ok ht hp hc hf] at h
          simp at h

theorem updateStepsV2_err_state {sm : SessionManager} {taskID : String}
    {fromN : ℚ} {updatePlan : List PlanEntry} {e : TCErr}
    (h : (updateStepsV2 sm taskID fromN updatePlan).1 = .err e) :
    (updateStepsV2 sm taskID fromN updatePlan).2 = sm := by
  by_cases ht : taskID = ""
  · simp [updateStepsV2, ht]
  · by_cases hp : updatePlan = []
    · simp [updateStepsV2, ht, hp]
    · rcases hc : lookupAssoc sm.TaskChainsV2 taskID with _ | chain
      · simp [updateStepsV2, ht, hp, hc]
      · by_cases hlen : ((findStepIdx chain.Steps fromN).map Prod.fst).getD 0 + 1
            ≤ chain.Steps.length
        · rw [updateStepsV2_ok ht hp hc hlen] at h
          simp at h
        · rw [updateStepsV2_oob ht hp hc hlen] at h
          simp at h

theorem deleteStepsV2_err_state {sm : SessionManager} {taskID : String}
    {n : ℚ} {scope : String} {e : TCErr}
    (h : (deleteStepsV2 sm taskID n scope).1 = .err e) :
    (deleteStepsV2 sm taskID n scope).2 = sm := by
  by_cases ht : taskID = ""
  · simp [deleteStepsV2, ht]
  · rcases hc : lookupAssoc sm.TaskChainsV2 taskID with _ | chain
    · simp [deleteStepsV2, ht, hc]
    · by_cases hscope : scope = "remaining"
      · subst hscope
        rw [deleteStepsV2_ok_remaining ht hc] at h
        simp at h
      · by_cases hn : 0 < n
        · rcases hf : deleteStepLoop chain.Steps n with _ | ⟨target, rest⟩
          · rw [deleteStepsV2_err_notFound ht hscope hn hc hf]
          · by_cases hs : target.Status = StepStatus.InProgress
            · rw [deleteStepsV2_err_active ht hscope hn hc hf hs]
            · rw [deleteStepsV2_ok_single ht hscope hn hc hf hs] at h
              simp at h
        · simp [deleteStepsV2, ht, hc, hscope, hn]

theorem finishChain_err_state {sm : SessionManager} {taskID : String}
    {e : TCErr} (h : (finishChain sm taskID).1 = .err e) :
    (finishChain sm taskID).2 = sm := by
  by_cases ht : taskID = ""
  · simp [finishChain, ht]
  · rw [finishChain_ok ht] at h
    simp at h

/-! ## The step numbers stored at a key, across each operation -/

theorem map_number_splice {l : List Step} {n : ℚ} {i : Nat} {t x : Step}
    (hf : findStepIdx l n = some (i, t)) (hx : x.Number = t.Number) :
    (l.take i ++ x :: l.drop (i + 1)).map Step.Number = l.map Step.Number := by
  induction l generalizing i with
  | nil => simp [findStepIdx] at hf
  | cons s rest ih =>
    rw [findStepIdx] at hf
    by_cases hs : s.Number = n
    · rw [if_pos hs] at hf
      injection hf with h2
      obtain ⟨hi, htg⟩ := Prod.mk.injEq .. ▸ h2
      subst hi; subst htg
      simp [hx]
    · rw [if_neg hs] at hf
      rcases hrest : findStepIdx rest n with _ | p
      · rw [hrest] at hf; simp at hf
      · rw [hrest] at hf
        obtain ⟨p1, p2⟩ := p
        simp only [Option.map_some'] at hf
        injection hf with h2
        obtain ⟨hi, htg⟩ := Prod.mk.injEq .. ▸ h2
        subst hi; subst htg
        simpa using ih hrest

theorem chainNumbers_some {sm : SessionManager} {id : String} {c : TaskChainV2}
    (hc : lookupAssoc sm.TaskChainsV2 id = some c) :
    chainNumbers sm id = c.Steps.map Step.Number := by
  simp [chainNumbers, hc]

theorem chainNumbers_pair_set (r : TCResult) (sm : SessionManager) (id : String)
    (c : TaskChainV2) :
    chainNumbers ((r, { sm with TaskChainsV2 := setAssoc sm.TaskChainsV2 id c }) : TCResult × SessionManager).2 id = c.Steps.map Step.Number := by
  simp [chainNumbers, lookup_setAssoc_self]

theorem chainNumbers_start (sm : SessionManager) (taskID : String) (n : ℚ) :
    chainNumbers (startStepV2 sm taskID n).2 taskID = chainNumbers sm taskID := by
  by_cases ht : taskID = ""
  · simp [startStepV2, ht]
  · rcases hc : lookupAssoc sm.TaskChainsV2 taskID with _ | chain
    · simp [startStepV2, ht, hc]
    · rcases hf : findStepIdx chain.Steps n with _ | ⟨i, target⟩
      · simp [startStepV2, ht, hc, hf]
      · by_cases hs : target.Status = StepStatus.Todo
        · rw [startStepV2_ok ht hc hf hs, chainNumbers_pair_set,
            chainNumbers_some hc]
          exact map_number_splice hf rfl
        · rw [startStepV2_err_notTodo ht hc hf hs]

theorem chainNumbers_complete (sm : SessionManager) (taskID : String) (n : ℚ)
    (summary : String) :
    chainNumbers (completeStepV2 sm taskID n summary).2 taskID
      = chainNumbers sm taskID := by
  by_cases ht : taskID = ""
  · simp [completeStepV2, ht]
  · by_cases hsum : summary = ""
    · simp [completeStepV2, ht, hsum]
    · rcases hc : lookupAssoc sm.TaskChainsV2 taskID with _ | chain
      · simp [completeStepV2, ht, hsum, hc]
      · rcases hf : findStepIdx chain.Steps n with _ | ⟨i, target⟩
        · simp [completeStepV2, ht, hsum, hc, hf]
        · by_cases hs : target.Status = StepStatus.InProgress
          · rw [completeStepV2_ok ht hsum hc hf hs, chainNumbers_pair_set,
              chainNumbers_some hc]
            exact map_number_splice hf rfl
          · rw [completeStepV2_err_notInProgress ht hsum hc hf hs]

theorem chainNumbers_delete_sublist (sm : SessionManager) (taskID : String)
    (n : ℚ) (scope : String) :
    (chainNumbers (deleteStepsV2 sm taskID n scope).2 taskID).Sublist
      (chainNumbers sm taskID) := by
  by_cases ht : taskID = ""
  · simp [deleteStepsV2, ht]
  · rcases hc : lookupAssoc sm.TaskChainsV2 taskID with _ | chain
    · simp [deleteStepsV2, ht, hc]
    · by_cases hscope : scope = "remaining"
      · subst hscope
        rw [deleteStepsV2_ok_remaining ht hc]
        simp only [chainNumbers, lookup_setAssoc_self, hc, Option.map_some,
          Option.getD_some]
        exact List.Sublist.map Step.Number (List.filter_sublist chain.Steps)
      · by_cases hn : 0 < n
        · rcases hf : deleteStepLoop chain.Steps n with _ | ⟨target, rest⟩
          · rw [deleteStepsV2_err_notFound ht hscope hn hc hf]
          · by_cases hs : target.Status = StepStatus.InProgress
            · rw [deleteStepsV2_err_active ht hscope hn hc hf hs]
            · rw [deleteStepsV2_ok_single ht hscope hn hc hf hs]
              simp only [chainNumbers, lookup_setAssoc_self, hc, Option.map_some,
                Option.getD_some]
              exact List.Sublist.map Step.Number (deleteStepLoop_some hf).2.2.1
        · simp [deleteStepsV2, ht, hc, hscope, hn]

theorem chainNumbers_finish (sm : SessionManager) (taskID id2 : String) :
    chainNumbers (finishChain sm taskID).2 id2 = chainNumbers sm id2 := by
  unfold chainNumbers
  rw [finishChain_v2_untouched]

theorem startedInitSteps_sorted (plan : List PlanEntry) :
    List.Pairwise (· < ·) ((startedInitSteps plan).map Step.Number) := by
  rcases plan with _ | ⟨p, rest⟩
  · simp [startedInitSteps]
  · simp only [startedInitSteps, List.map_cons, List.pairwise_cons]
    refine ⟨?_, mkInitSteps_sorted 1 rest⟩
    intro b hb
    obtain ⟨s, hs, rfl⟩ := List.mem_map.mp hb
    have := mkInitSteps_number_gt 1 rest s hs
    push_cast at this
    linarith

theorem chainNumbers_init_ok {sm : SessionManager}
    {taskID description : String} {plan : List PlanEntry}
    (ht : taskID ≠ "") (hp : plan ≠ []) :
    chainNumbers (initTaskChainV2 sm taskID description plan).2 taskID
      = (startedInitSteps plan).map Step.Number := by
  rw [initTaskChainV2_ok ht hp]
  simp [chainNumbers, lookup_setAssoc_self]

/-! ## No step status is ever reverted -/

theorem stepFrom_refl (s : Step) : stepFrom s s := ⟨rfl, rfl, rfl, le_refl _⟩

theorem noRevert_refl (c : TaskChainV2) : noRevert c c :=
  fun t htm => Or.inr ⟨t, htm, stepFrom_refl t⟩

theorem noRevert_of_state_eq {sm X : SessionManager} {taskID : String}
    {chain chain2 : TaskChainV2} (heq : X = sm)
    (hc : lookupAssoc sm.TaskChainsV2 taskID = some chain)
    (hc2 : lookupAssoc X.TaskChainsV2 taskID = some chain2) :
    noRevert chain chain2 := by
  subst heq
  rw [hc] at hc2
  injection hc2 with h2
  subst h2
  exact noRevert_refl chain

theorem noRevert_start {sm : SessionManager} {taskID : String} {n : ℚ}
    {chain chain2 : TaskChainV2}
    (hc : lookupAssoc sm.TaskChainsV2 taskID = some chain)
    (hc2 : lookupAssoc (startStepV2 sm taskID n).2.TaskChainsV2 taskID
      = some chain2) :
    noRevert chain chain2 := by
  by_cases ht : taskID = ""
  · exact noRevert_of_state_eq (by simp [startStepV2, ht]) hc hc2
  · rcases hf : findStepIdx chain.Steps n with _ | ⟨i, target⟩
    · exact noRevert_of_state_eq
        (by rw [startStepV2_err_notFound ht hc hf]) hc hc2
    · by_cases hs : target.Status = StepStatus.Todo
      · rw [startStepV2_ok ht hc hf hs] at hc2
        simp only [lookup_setAssoc_self] at hc2
        injection hc2 with h2
        subst h2
        intro t htm
        rcases mem_splice htm with rfl | hmem
        · refine Or.inr ⟨target, (findStepIdx_some hf).2.2.2, rfl, rfl, rfl, ?_⟩
          rw [hs]
          exact Nat.zero_le _
        · exact Or.inr ⟨t, hmem, stepFrom_refl t⟩
      · exact noRevert_of_state_eq
          (by rw [startStepV2_err_notTodo ht hc hf hs]) hc hc2

theorem noRevert_complete {sm : SessionManager} {taskID : String} {n : ℚ}
    {summary : String} {chain chain2 : TaskChainV2}
    (hc : lookupAssoc sm.TaskChainsV2 taskID = some chain)
    (hc2 : lookupAssoc
      (completeStepV2 sm taskID n summary).2.TaskChainsV2 taskID
      = some chain2) :
    noRevert chain chain2 := by
  by_cases ht : taskID = ""
  · exact noRevert_of_state_eq (by simp [completeStepV2, ht]) hc hc2
  · by_cases hsum : summary = ""
    · exact noRevert_of_state_eq (by simp [completeStepV2, ht, hsum]) hc hc2
    · rcases hf : findStepIdx chain.Steps n with _ | ⟨i, target⟩
      · exact noRevert_of_state_eq
          (by simp [completeStepV2, ht, hsum, hc, hf]) hc hc2
      · by_cases hs : target.Status = StepStatus.InProgress
        · rw [completeStepV2_ok ht hsum hc hf hs] at hc2
          simp only [lookup_setAssoc_self] at hc2
          injection hc2 with h2
          subst h2
          intro t htm
          rcases mem_splice htm with rfl | hmem
          · refine Or.inr
              ⟨target, (findStepIdx_some hf).2.2.2, rfl, rfl, rfl, ?_⟩
            rw [hs]
            exact Nat.le_succ 1
          · exact Or.inr ⟨t, hmem, stepFrom_refl t⟩
        · exact noRevert_of_state_eq
            (by rw [completeStepV2_err_notInProgress ht hsum hc hf hs]) hc hc2

theorem noRevert_insert {sm : SessionManager} {taskID : String} {after : ℚ}
    {insertPlan : List PlanEntry} {chain chain2 : TaskChainV2}
    (hc : lookupAssoc sm.TaskChainsV2 taskID = some chain)
    (hc2 : lookupAssoc
      (insertStepsV2 sm taskID after insertPlan).2.TaskChainsV2 taskID
      = some chain2) :
    noRevert chain chain2 := by
  by_cases ht : taskID = ""
  · exact noRevert_of_state_eq (by simp [insertStepsV2, ht]) hc hc2
  · by_cases hp : insertPlan = []
    · exact noRevert_of_state_eq (by simp [insertStepsV2, ht, hp]) hc hc2
    · rcases hf : findStepIdx chain.Steps after with _ | ⟨i, anchor⟩
      · exact noRevert_of_state_eq
          (by rw [insertStepsV2_err_anchor ht hp hc hf]) hc hc2
      · rw [insertStepsV2_ok ht hp hc hf] at hc2
        simp only [lookup_setAssoc_self] at hc2
        injection hc2 with h2
        subst h2
        intro t htm
        rcases List.mem_append.mp htm with h | h
        · rcases List.mem_append.mp h with h1 | h1
          · exact Or.inr ⟨t, List.mem_of_mem_take h1, stepFrom_refl t⟩
          · exact Or.inl (mkInsertSteps_status after 0 insertPlan t h1)
        · exact Or.inr ⟨t, List.mem_of_mem_drop h, stepFrom_refl t⟩

theorem noRevert_update {sm : SessionManager} {taskID : String} {fromN : ℚ}
    {updatePlan : List PlanEntry} {chain chain2 : TaskChainV2}
    (hne : chain.Steps ≠ [])
    (hc : lookupAssoc sm.TaskChainsV2 taskID = some chain)
    (hc2 : lookupAssoc
      (updateStepsV2 sm taskID fromN updatePlan).2.TaskChainsV2 taskID
      = some chain2) :
    noRevert chain chain2 := by
  by_cases ht : taskID = ""
  · exact noRevert_of_state_eq (by simp [updateStepsV2, ht]) hc hc2
  · by_cases hp : updatePlan = []
    · exact noRevert_of_state_eq (by simp [updateStepsV2, ht, hp]) hc hc2
    · rw [updateStepsV2_ok ht hp hc (update_slice_in_range hne)] at hc2
      simp only [lookup_setAssoc_self] at hc2
      injection hc2 with h2
      subst h2
      intro t htm
      rcases List.mem_append.mp htm with h | h
      · exact Or.inr ⟨t, List.mem_of_mem_take h, stepFrom_refl t⟩
      · exact Or.inl (mkUpdateSteps_status fromN 0 updatePlan t h)

theorem noRevert_delete {sm : SessionManager} {taskID : String} {n : ℚ}
    {scope : String} {chain chain2 : TaskChainV2}
    (hc : lookupAssoc sm.TaskChainsV2 taskID = some chain)
    (hc2 : lookupAssoc
      (deleteStepsV2 sm taskID n scope).2.TaskChainsV2 taskID
      = some chain2) :
    noRevert chain chain2 := by
  by_cases ht : taskID = ""
  · exact noRevert_of_state_eq (by simp [deleteStepsV2, ht]) hc hc2
  · by_cases hscope : scope = "remaining"
    · subst hscope
      rw [deleteStepsV2_ok_remaining ht hc] at hc2
      simp only [lookup_setAssoc_self] at hc2
      injection hc2 with h2
      subst h2
      intro t htm
      exact Or.inr ⟨t, List.mem_of_mem_filter htm, stepFrom_refl t⟩
    · by_cases hn : 0 < n
      · rcases hf : deleteStepLoop chain.Steps n with _ | ⟨target, rest⟩
        · exact noRevert_of_state_eq
            (by rw [deleteStepsV2_err_notFound ht hscope hn hc hf]) hc hc2
        · by_cases hs : target.Status = StepStatus.InProgress
          · exact noRevert_of_state_eq
              (by rw [deleteStepsV2_err_active ht hscope hn hc hf hs]) hc hc2
          · rw [deleteStepsV2_ok_single ht hscope hn hc hf hs] at hc2
            simp only [lookup_setAssoc_self] at hc2
            injection hc2 with h2
            subst h2
            intro t htm
            exact Or.inr
              ⟨t, (deleteStepLoop_some hf).2.2.1.subset htm, stepFrom_refl t⟩
      · exact noRevert_of_state_eq
          (by simp [deleteStepsV2, ht, hc, hscope, hn]) hc hc2

theorem noRevert_finish {sm : SessionManager} {taskID : String}
    {chain chain2 : TaskChainV2}
    (hc : lookupAssoc sm.TaskChainsV2 taskID = some chain)
    (hc2 : lookupAssoc (finishChain sm taskID).2.TaskChainsV2 taskID
      = some chain2) :
    noRevert chain chain2 := by
  rw [finishChain_v2_untouched, hc] at hc2
  injection hc2 with h2
  subst h2
  exact noRevert_refl chain

theorem init_steps_lifecycle {sm : SessionManager} {taskID description : String}
    {plan : List PlanEntry} {chain2 : TaskChainV2}
    (ht : taskID ≠ "") (hp : plan ≠ [])
    (hc2 : lookupAssoc
      (initTaskChainV2 sm taskID description plan).2.TaskChainsV2 taskID
      = some chain2) :
    ∀ t ∈ chain2.Steps,
      t.Status = StepStatus.Todo
        ∨ (t.Number = 1 ∧ t.Status = StepStatus.InProgress) := by
  rw [initTaskChainV2_ok ht hp] at hc2
  simp only [lookup_setAssoc_self] at hc2
  injection hc2 with h2
  subst h2
  intro t htm
  rcases plan with _ | ⟨p, rest⟩
  · exact absurd rfl hp
  · simp only [startedInitSteps] at htm
    rcases List.mem_cons.mp htm with h | h
    · subst h
      exact Or.inr ⟨rfl, rfl⟩
    · exact Or.inl (mkInitSteps_status 1 rest t h)

theorem startedInitSteps_length (plan : List PlanEntry) :
    (startedInitSteps plan).length = plan.length := by
  rcases plan with _ | ⟨p, rest⟩
  · simp [startedInitSteps]
  · simp [startedInitSteps, mkInitSteps_length]

theorem startedInitSteps_getD (plan : List PlanEntry) (i : Nat)
    (h : i < plan.length) :
    (startedInitSteps plan).getD i default =
      { Number := ((i + 1 : Nat) : ℚ), Name := (plan.getD i default).name, Input := (plan.getD i default).input, Status := if i = 0 then StepStatus.InProgress else StepStatus.Todo, Summary := "" } := by
  rcases plan with _ | ⟨p, rest⟩
  · simp at h
  · cases i with
    | zero => simp [startedInitSteps]
    | succ i2 =>
      have h2 : i2 < rest.length := by simpa using h
      simp only [startedInitSteps, List.getD_cons_succ]
      rw [mkInitSteps_getD rest 1 i2 h2]
      have harith : 1 + i2 + 1 = i2 + 1 + 1 := by omega
      simp [harith]

/-! ## Sample session states and chains used in the concrete runs -/

/-- The single step of chain T in smA, as stored after the
auto-start. -/
def stepA : Step :=
  { Number := 1, Name := "a", Input := "", Status := StepStatus.InProgress,
    Summary := "" }

/-- The second step of chain T in smAB. -/
def stepB : Step :=
  { Number := 2, Name := "b", Input := "", Status := StepStatus.Todo,
    Summary := "" }

/-- The chain stored under T in smA. -/
def chainA : TaskChainV2 :=
  { TaskID := "T", Description := "demo", Steps := [stepA], CurrentStep := 1,
    Status := "running" }

/-- The chain stored under T in smAB. -/
def chainAB : TaskChainV2 :=
  { TaskID := "T", Description := "demo", Steps := [stepA, stepB],
    CurrentStep := 1, Status := "running" }

/-- Projection of the decision briefing out of a result, if any. -/
def decisionOf : TCResult → Option DecisionPoint
  | .decision d => some d
  | _ => none

/-- A 34-character Chinese summary: at most 100 characters, but 102
UTF-8 bytes. -/
def cjk34 : String :=
  "中中中中中中中中中中中中中中中中中中中中中中中中中中中中中中中中中中"

instance (sm : SessionManager) (id : String) :
    Decidable (chainOrderedAt sm id) := by
  unfold chainOrderedAt
  infer_instance

/-! ## The claims -/

/-- C1 (code bug): for the V2 chain T, which exists and is running,
the finish mode reports success but does not set the V2 chain status
to finished: finishChain reads and writes only the legacy V1 map
SessionManager.TaskChains, so here the whole session state is
unchanged and the chain status stays "running". -/
theorem finish_reports_ok_but_leaves_v2_chain_running :
    (lookupAssoc smA.TaskChainsV2 "T").isSome = true ∧
    (finishChain smA "T").1 = .ok ∧
    (finishChain smA "T").2 = smA ∧
    ((lookupAssoc (finishChain smA "T").2.TaskChainsV2 "T").getD default).Status
      = "running" := by decide

/-- C2 counterexample: initialising with a task_id that is already
present does not fail (in particular there is no DuplicateChain
error): it succeeds, and it modifies the stored chain. -/
theorem init_duplicate_task_id_overwrites_cex :
    (lookupAssoc smA.TaskChainsV2 "T").isSome = true ∧
    (initTaskChainV2 smA "T" "d2" [⟨"b", ""⟩, ⟨"c", ""⟩]).1 = .ok ∧
    lookupAssoc (initTaskChainV2 smA "T" "d2" [⟨"b", ""⟩, ⟨"c", ""⟩]).2.TaskChainsV2 "T"
      ≠ lookupAssoc smA.TaskChainsV2 "T" := by decide

/-- C2 amended: initTaskChainV2 performs no duplicate check.  When a
chain with the given task_id is already present, initialize succeeds
and replaces the stored chain by a freshly initialised chain built
from the new plan (auto-started at step 1); the pre-existing chain is
not preserved. -/
theorem init_duplicate_task_id_overwrites :
    ∀ (sm : SessionManager) (taskID description : String)
      (plan : List PlanEntry) (old : TaskChainV2), taskID ≠ "" → plan ≠ [] →
      lookupAssoc sm.TaskChainsV2 taskID = some old →
      (initTaskChainV2 sm taskID description plan).1 = .ok ∧
      ∀ c, lookupAssoc
          (initTaskChainV2 sm taskID description plan).2.TaskChainsV2 taskID
          = some c →
        c.Description = description ∧ c.Steps.length = plan.length ∧
        c.CurrentStep = 1 ∧ c.Status = "running" := by
  intro sm taskID description plan old ht hp hold
  refine ⟨?_, ?_⟩
  · rw [@initTaskChainV2_ok sm taskID description plan ht hp]
  · intro c hc2
    rw [@initTaskChainV2_ok sm taskID description plan ht hp] at hc2
    simp only [lookup_setAssoc_self] at hc2
    injection hc2 with h2
    subst h2
    exact ⟨rfl, startedInitSteps_length plan, rfl, rfl⟩

/-- C2 witness: re-initialising the already-present chain T succeeds. -/
theorem init_duplicate_task_id_overwrites_witness :
    (initTaskChainV2 smA "T" "d2" [⟨"b", ""⟩, ⟨"c", ""⟩]).1 = .ok :=
  (init_duplicate_task_id_overwrites smA "T" "d2" [⟨"b", ""⟩, ⟨"c", ""⟩]
    chainA (by decide) (by decide) (by decide)).1

/-- C4: for a non-empty plan of length N, initialize creates a chain
with exactly N steps numbered 1..N in plan order, all Todo except step
1 which is InProgress after the implicit auto-start, with current_step
1 and a running status; for an empty plan it fails with the EmptyPlan
error and leaves the state unchanged. -/
theorem init_creates_numbered_autostarted_chain :
    ∀ (sm : SessionManager) (taskID description : String)
      (plan : List PlanEntry), taskID ≠ "" →
      (plan = [] →
        initTaskChainV2 sm taskID description plan = (.err .emptyPlan, sm)) ∧
      (plan ≠ [] →
        (initTaskChainV2 sm taskID description plan).1 = .ok ∧
        ∀ c, lookupAssoc
            (initTaskChainV2 sm taskID description plan).2.TaskChainsV2 taskID
            = some c →
          c.Steps.length = plan.length ∧ c.CurrentStep = 1 ∧
          c.Status = "running" ∧ c.Description = description ∧
          ∀ i, i < plan.length →
            (c.Steps.getD i default).Number = ((i + 1 : Nat) : ℚ) ∧
            (c.Steps.getD i default).Name = (plan.getD i default).name ∧
            (c.Steps.getD i default).Input = (plan.getD i default).input ∧
            (c.Steps.getD i default).Status
              = (if i = 0 then StepStatus.InProgress else StepStatus.Todo)) := by
  intro sm taskID description plan ht
  constructor
  · intro hp
    subst hp
    simp [initTaskChainV2, ht]
  · intro hp
    constructor
    · rw [@initTaskChainV2_ok sm taskID description plan ht hp]
    · intro c hc2
      rw [@initTaskChainV2_ok sm taskID description plan ht hp] at hc2
      simp only [lookup_setAssoc_self] at hc2
      injection hc2 with h2
      subst h2
      refine ⟨startedInitSteps_length plan, rfl, rfl, rfl, ?_⟩
      intro i hi
      rw [startedInitSteps_getD plan i hi]
      exact ⟨rfl, rfl, rfl, rfl⟩

/-- C4 witness: a two-step initialisation succeeds, and an empty plan
fails with EmptyPlan. -/
theorem init_creates_numbered_autostarted_chain_witness :
    (initTaskChainV2 sm0 "T" "demo" [⟨"a", ""⟩, ⟨"b", ""⟩]).1 = .ok ∧
    initTaskChainV2 sm0 "T" "x" [] = (.err .emptyPlan, sm0) :=
  ⟨((init_creates_numbered_autostarted_chain sm0 "T" "demo"
      [⟨"a", ""⟩, ⟨"b", ""⟩] (by decide)).2 (by decide)).1,
   (init_creates_numbered_autostarted_chain sm0 "T" "x" [] (by decide)).1 rfl⟩

/-- C7: whenever an operation returns an error, the session state it
returns is exactly the input state: no operation has partial-failure
side effects on any chain of either store. -/
theorem errors_leave_session_unchanged :
    ∀ (sm : SessionManager) (taskID description summary scope : String)
      (n after fromN : ℚ) (plan iplan uplan : List PlanEntry) (e : TCErr),
    ((initTaskChainV2 sm taskID description plan).1 = .err e →
      (initTaskChainV2 sm taskID description plan).2 = sm) ∧
    ((startStepV2 sm taskID n).1 = .err e → (startStepV2 sm taskID n).2 = sm) ∧
    ((completeStepV2 sm taskID n summary).1 = .err e →
      (completeStepV2 sm taskID n summary).2 = sm) ∧
    ((insertStepsV2 sm taskID after iplan).1 = .err e →
      (insertStepsV2 sm taskID after iplan).2 = sm) ∧
    ((updateStepsV2 sm taskID fromN uplan).1 = .err e →
      (updateStepsV2 sm taskID fromN uplan).2 = sm) ∧
    ((deleteStepsV2 sm taskID n scope).1 = .err e →
      (deleteStepsV2 sm taskID n scope).2 = sm) ∧
    ((finishChain sm taskID).1 = .err e → (finishChain sm taskID).2 = sm) :=
  fun _ _ _ _ _ _ _ _ _ _ _ _ =>
    ⟨fun h => initTaskChainV2_err_state h,
     fun h => startStepV2_err_state h,
     fun h => completeStepV2_err_state h,
     fun h => insertStepsV2_err_state h,
     fun h => updateStepsV2_err_state h,
     fun h => deleteStepsV2_err_state h,
     fun h => finishChain_err_state h⟩

/-- C7 witness: a start on a missing chain and a double start both
fail and leave the session state untouched. -/
theorem errors_leave_session_unchanged_witness :
    (startStepV2 smA "Z" 1).2 = smA ∧ (startStepV2 smA "T" 1).2 = smA :=
  ⟨(errors_leave_session_unchanged smA "Z" "" "" "" 1 0 0 [] [] []
      (.chainNotFound "Z")).2.1 (by decide),
   (errors_leave_session_unchanged smA "T" "" "" "" 1 0 0 [] [] []
      (.invalidStart 1 StepStatus.InProgress)).2.1 (by decide)⟩

/-- C3 counterexample: from the reachable two-step chain T, a
successful update with anchor 1 leaves the chain with the step numbers
1 and 1 (the kept anchor step and the first replacement step share a
number), so the step numbers of a reachable chain after a successful
operation need not be pairwise distinct nor strictly ascending. -/
theorem update_duplicates_step_number_cex :
    (updateStepsV2 smAB "T" 1 [⟨"c", ""⟩]).1 = .ok ∧
    chainNumbers (updateStepsV2 smAB "T" 1 [⟨"c", ""⟩]).2 "T" = [1, 1] ∧
    ¬ List.Pairwise (· ≠ ·)
      (chainNumbers (updateStepsV2 smAB "T" 1 [⟨"c", ""⟩]).2 "T") := by
  have hc : lookupAssoc smAB.TaskChainsV2 "T" = some chainAB := by decide
  have ht : ("T" : String) ≠ "" := by decide
  have hp : ([⟨"c", ""⟩] : List PlanEntry) ≠ [] := by decide
  have hnum : chainNumbers (updateStepsV2 smAB "T" 1 [⟨"c", ""⟩]).2 "T"
      = [1, 1] := by
    rw [updateStepsV2_ok ht hp hc (by decide), chainNumbers_pair_set]
    have hidx : ((findStepIdx chainAB.Steps 1).map Prod.fst).getD 0 = 0 := by
      decide
    rw [hidx]
    norm_num [chainAB, stepA, stepB, mkUpdateSteps, List.take_succ_cons,
      List.take_zero]
  refine ⟨?_, hnum, ?_⟩
  · rw [updateStepsV2_ok ht hp hc (by decide)]
  · rw [hnum]
    intro h
    simp [List.pairwise_cons] at h

/-- C3 amended: initialize establishes the strictly-ascending (hence
pairwise-distinct) numbering, and start, complete, delete and finish
preserve it; insert and update do not preserve it in general (see the
counterexample: update reuses the anchor number, and repeated insert
at one anchor regenerates the same fractions). -/
theorem ordering_preserved_by_init_start_complete_delete_finish :
    ∀ (sm : SessionManager) (taskID description summary scope : String)
      (n : ℚ) (plan : List PlanEntry),
    (chainOrderedAt sm taskID →
      chainOrderedAt (startStepV2 sm taskID n).2 taskID) ∧
    (chainOrderedAt sm taskID →
      chainOrderedAt (completeStepV2 sm taskID n summary).2 taskID) ∧
    (chainOrderedAt sm taskID →
      chainOrderedAt (deleteStepsV2 sm taskID n scope).2 taskID) ∧
    (chainOrderedAt sm taskID →
      chainOrderedAt (finishChain sm taskID).2 taskID) ∧
    ((initTaskChainV2 sm taskID description plan).1 = .ok →
      chainOrderedAt (initTaskChainV2 sm taskID description plan).2 taskID) ∧
    (chainOrderedAt sm taskID →
      List.Pairwise (· ≠ ·) (chainNumbers sm taskID)) := by
  intro sm taskID description summary scope n plan
  refine ⟨?_, ?_, ?_, ?_, ?_, ?_⟩
  · intro h
    unfold chainOrderedAt at h ⊢
    rw [chainNumbers_start]
    exact h
  · intro h
    unfold chainOrderedAt at h ⊢
    rw [chainNumbers_complete]
    exact h
  · intro h
    unfold chainOrderedAt at h ⊢
    exact List.Pairwise.sublist (chainNumbers_delete_sublist sm taskID n scope) h
  · intro h
    unfold chainOrderedAt at h ⊢
    rw [chainNumbers_finish]
    exact h
  · intro hok
    by_cases ht : taskID = ""
    · simp [initTaskChainV2, ht] at hok
    · by_cases hp : plan = []
      · simp [initTaskChainV2, ht, hp] at hok
      · unfold chainOrderedAt
        rw [chainNumbers_init_ok ht hp]
        exact startedInitSteps_sorted plan
  · intro h
    exact h.imp (fun hlt => ne_of_lt hlt)

/-- C3 witness: bulk delete on the completed chain T and a fresh
two-step initialisation both yield strictly-ascending chains. -/
theorem ordering_preserved_witness :
    chainOrderedAt (deleteStepsV2 smAC "T" 0 "remaining").2 "T" ∧
    chainOrderedAt (initTaskChainV2 sm0 "W" "d" [⟨"x", ""⟩, ⟨"y", ""⟩]).2 "W" :=
  ⟨(ordering_preserved_by_init_start_complete_delete_finish smAC "T" "" ""
      "remaining" 0 []).2.2.1 (by decide),
   (ordering_preserved_by_init_start_complete_delete_finish sm0 "W" "d" ""
      "" 0 [⟨"x", ""⟩, ⟨"y", ""⟩]).2.2.2.2.1 (by decide)⟩

/-- C10: a successful start on a Todo step changes only that step
status (to InProgress) and the chain current_step (to the given
number): the result is ok, every other task_id maps to its old chain,
the legacy store is untouched, the chain metadata is unchanged, the
step count is unchanged, the target position holds the target step
with status InProgress and all other fields intact, and every other
position is unchanged.  In particular no other InProgress step is
reset, so after starting step 2 of the two-step chain T both steps are
InProgress simultaneously. -/
theorem start_frame_effect :
    (∀ (sm : SessionManager) (taskID : String) (n : ℚ) (chain : TaskChainV2)
      (i : Nat) (target : Step), taskID ≠ "" →
      lookupAssoc sm.TaskChainsV2 taskID = some chain →
      findStepIdx chain.Steps n = some (i, target) →
      target.Status = StepStatus.Todo →
      (startStepV2 sm taskID n).1 = .ok ∧
      (∀ id2, id2 ≠ taskID →
        lookupAssoc (startStepV2 sm taskID n).2.TaskChainsV2 id2
          = lookupAssoc sm.TaskChainsV2 id2) ∧
      (startStepV2 sm taskID n).2.TaskChains = sm.TaskChains ∧
      ∀ c, lookupAssoc (startStepV2 sm taskID n).2.TaskChainsV2 taskID
          = some c →
        c.TaskID = chain.TaskID ∧ c.Description = chain.Description ∧
        c.Status = chain.Status ∧ c.CurrentStep = n ∧
        c.Steps.length = chain.Steps.length ∧
        c.Steps.getD i default = { target with Status := StepStatus.InProgress } ∧
        ∀ j, j ≠ i → c.Steps.getD j default = chain.Steps.getD j default) ∧
    chainStatuses (startStepV2 smAB "T" 2).2 "T"
      = [StepStatus.InProgress, StepStatus.InProgress] := by
  constructor
  · intro sm taskID n chain i target ht hc hf hs
    have hok := startStepV2_ok ht hc hf hs
    have hi : i < chain.Steps.length := (findStepIdx_some hf).1
    refine ⟨by rw [hok], ?_, by rw [hok], ?_⟩
    · intro id2 hne
      rw [hok]
      exact lookup_setAssoc_ne _ _ _ _ hne
    · intro c hc2
      rw [hok] at hc2
      simp only [lookup_setAssoc_self] at hc2
      injection hc2 with h2
      subst h2
      refine ⟨rfl, rfl, rfl, rfl, ?_, ?_, ?_⟩
      · exact length_splice _ hi
      · exact getD_splice_self _ _ hi
      · intro j hj
        exact getD_splice_ne _ _ hi hj
  · decide

/-- C10 witness: starting step 2 of the two-step chain T succeeds and
leaves the chain stored under any other task_id unchanged. -/
theorem start_frame_effect_witness :
    (startStepV2 smAB "T" 2).1 = .ok ∧
    lookupAssoc (startStepV2 smAB "T" 2).2.TaskChainsV2 "U"
      = lookupAssoc smAB.TaskChainsV2 "U" :=
  ⟨(start_frame_effect.1 smAB "T" 2 chainAB 1 stepB (by decide) (by decide)
      (by decide) (by decide)).1,
   (start_frame_effect.1 smAB "T" 2 chainAB 1 stepB (by decide) (by decide)
      (by decide) (by decide)).2.1 "U" (by decide)⟩

/-- The completed step of chain T in smAC. -/
def stepAC : Step :=
  { Number := 1, Name := "a", Input := "", Status := StepStatus.Complete,
    Summary := "done" }

/-- The chain stored under T in smAC. -/
def chainAC : TaskChainV2 :=
  { TaskID := "T", Description := "demo", Steps := [stepAC], CurrentStep := 1,
    Status := "running" }

/-- C8 counterexample: in the reachable state smAC the only step of
chain T is Complete, yet a numeric delete of that step succeeds and
removes it — delete does not require the matched step to be Todo and
does remove a step whose status is not Todo. -/
theorem delete_removes_complete_step_cex :
    chainStatuses smAC "T" = [StepStatus.Complete] ∧
    (deleteStepsV2 smAC "T" 1 "").1 = .ok ∧
    chainNumbers (deleteStepsV2 smAC "T" 1 "").2 "T" = [] := by decide

/-- C8 amended: a numeric delete (scope other than remaining, positive
target) fails with StepNotFound when no step has the exact number, and
with CannotDeleteActive when the first matching step is InProgress;
otherwise it succeeds and removes exactly that first matching step —
whatever its status, including Complete.  Only InProgress steps are
protected: every InProgress step survives a successful numeric
delete. -/
theorem delete_single_only_blocks_inprogress :
    ∀ (sm : SessionManager) (taskID scope : String) (n : ℚ)
      (chain : TaskChainV2), taskID ≠ "" → scope ≠ "remaining" → 0 < n →
      lookupAssoc sm.TaskChainsV2 taskID = some chain →
      ((∀ s ∈ chain.Steps, s.Number ≠ n) →
        deleteStepsV2 sm taskID n scope = (.err (.stepNotFound n), sm)) ∧
      (∀ target rest, deleteStepLoop chain.Steps n = some (target, rest) →
        (target.Status = StepStatus.InProgress →
          deleteStepsV2 sm taskID n scope
            = (.err (.cannotDeleteActive n), sm)) ∧
        (target.Status ≠ StepStatus.InProgress →
          (deleteStepsV2 sm taskID n scope).1 = .ok ∧
          target.Number = n ∧
          lookupAssoc (deleteStepsV2 sm taskID n scope).2.TaskChainsV2 taskID = some { chain with Steps := rest } ∧
          rest.Sublist chain.Steps ∧
          (∀ s ∈ chain.Steps, s.Status = StepStatus.InProgress →
            s ∈ rest))) := by
  intro sm taskID scope n chain ht hscope hn hc
  constructor
  · intro hnone
    exact deleteStepsV2_err_notFound ht hscope hn hc
      (deleteStepLoop_none_iff.mpr hnone)
  · intro target rest hf
    obtain ⟨hmem, hnum, hsub, hall⟩ := deleteStepLoop_some hf
    constructor
    · intro hs
      exact deleteStepsV2_err_active ht hscope hn hc hf hs
    · intro hs
      have hok := deleteStepsV2_ok_single ht hscope hn hc hf hs
      refine ⟨by rw [hok], hnum, ?_, hsub, ?_⟩
      · rw [hok]
        simp only [lookup_setAssoc_self]
      · intro s hsmem hsip
        rcases hall s hsmem with rfl | hrest
        · exact absurd hsip hs
        · exact hrest

/-- C8 witness: deleting the InProgress step 1 of chain T fails with
CannotDeleteActive, and deleting the absent step 3 fails with
StepNotFound. -/
theorem delete_single_only_blocks_inprogress_witness :
    deleteStepsV2 smA "T" 1 "" = (.err (.cannotDeleteActive 1), smA) ∧
    deleteStepsV2 smAC "T" 3 "" = (.err (.stepNotFound 3), smAC) :=
  ⟨((delete_single_only_blocks_inprogress smA "T" "" 1 chainA (by decide)
      (by decide) (by decide) (by decide)).2 stepA [] (by decide)).1
      (by decide),
   (delete_single_only_blocks_inprogress smAC "T" "" 3 chainAC (by decide)
      (by decide) (by decide) (by decide)).1 (by decide)⟩

/-- C6: step statuses only ever move along Todo, InProgress, Complete.
Start fails with the invalid-transition error unless the target step
is Todo (so a second start of the same step fails), complete fails
unless the step is InProgress, a Complete step can be neither started
nor completed again, and no operation on an existing chain ever moves
a step status backwards: after start, complete, insert, update, delete
or finish, every stored step either is a fresh Todo step or descends
from a step of the previous chain with the same number, name and input
and an equal or advanced status; a freshly initialised chain holds
only Todo steps apart from step 1, which the auto-start has advanced
Todo to InProgress.  The update conjunct is stated for chains that
still hold at least one step: on an empty step list the Go update
slices out of range, and its outcome depends on the hidden slice
capacity (a panic, or the return of a previously deleted step with
its status unchanged — neither of which moves a status backwards, but
neither of which a value-level model can represent; the model marks
that case as TCResult.sliceOutOfRange). -/
theorem step_status_monotone :
    ∀ (sm : SessionManager) (taskID description summary scope : String)
      (n after fromN : ℚ) (plan iplan uplan : List PlanEntry),
    (∀ chain i target, taskID ≠ "" →
      lookupAssoc sm.TaskChainsV2 taskID = some chain →
      findStepIdx chain.Steps n = some (i, target) →
      target.Status ≠ StepStatus.Todo →
      startStepV2 sm taskID n = (.err (.invalidStart n target.Status), sm)) ∧
    (∀ chain i target, taskID ≠ "" → summary ≠ "" →
      lookupAssoc sm.TaskChainsV2 taskID = some chain →
      findStepIdx chain.Steps n = some (i, target) →
      target.Status ≠ StepStatus.InProgress →
      completeStepV2 sm taskID n summary
        = (.err (.invalidComplete n target.Status), sm)) ∧
    (∀ chain i target, taskID ≠ "" → summary ≠ "" →
      lookupAssoc sm.TaskChainsV2 taskID = some chain →
      findStepIdx chain.Steps n = some (i, target) →
      target.Status = StepStatus.Complete →
      startStepV2 sm taskID n
        = (.err (.invalidStart n StepStatus.Complete), sm) ∧
      completeStepV2 sm taskID n summary
        = (.err (.invalidComplete n StepStatus.Complete), sm)) ∧
    (∀ chain chain2, lookupAssoc sm.TaskChainsV2 taskID = some chain →
      (lookupAssoc (startStepV2 sm taskID n).2.TaskChainsV2 taskID
        = some chain2 → noRevert chain chain2) ∧
      (lookupAssoc (completeStepV2 sm taskID n summary).2.TaskChainsV2 taskID
        = some chain2 → noRevert chain chain2) ∧
      (lookupAssoc (insertStepsV2 sm taskID after iplan).2.TaskChainsV2 taskID
        = some chain2 → noRevert chain chain2) ∧
      (chain.Steps ≠ [] →
        lookupAssoc (updateStepsV2 sm taskID fromN uplan).2.TaskChainsV2 taskID
        = some chain2 → noRevert chain chain2) ∧
      (lookupAssoc (deleteStepsV2 sm taskID n scope).2.TaskChainsV2 taskID
        = some chain2 → noRevert chain chain2) ∧
      (lookupAssoc (finishChain sm taskID).2.TaskChainsV2 taskID
        = some chain2 → noRevert chain chain2)) ∧
    (∀ chain2, taskID ≠ "" → plan ≠ [] →
      lookupAssoc
        (initTaskChainV2 sm taskID description plan).2.TaskChainsV2 taskID
        = some chain2 →
      ∀ t ∈ chain2.Steps,
        t.Status = StepStatus.Todo
          ∨ (t.Number = 1 ∧ t.Status = StepStatus.InProgress)) := by
  intro sm taskID description summary scope n after fromN plan iplan uplan
  refine ⟨?_, ?_, ?_, ?_, ?_⟩
  · intro chain i target ht hc hf hs
    exact startStepV2_err_notTodo ht hc hf hs
  · intro chain i target ht hsum hc hf hs
    exact completeStepV2_err_notInProgress ht hsum hc hf hs
  · intro chain i target ht hsum hc hf hs
    constructor
    · have := startStepV2_err_notTodo ht hc hf (by simp [hs])
      rwa [hs] at this
    · have := completeStepV2_err_notInProgress ht hsum hc hf (by simp [hs])
      rwa [hs] at this
  · intro chain chain2 hc
    exact ⟨fun h => noRevert_start hc h, fun h => noRevert_complete hc h,
      fun h => noRevert_insert hc h, fun hne h => noRevert_update hne hc h,
      fun h => noRevert_delete hc h, fun h => noRevert_finish hc h⟩
  · intro chain2 ht hp hc2
    exact init_steps_lifecycle ht hp hc2

/-- C6 witness: starting the already started step 1 fails with the
invalid-transition error, and the Complete step 1 of smAC can be
neither started nor completed again. -/
theorem step_status_monotone_witness :
    startStepV2 smA "T" 1 = (.err (.invalidStart 1 StepStatus.InProgress), smA) ∧
    startStepV2 smAC "T" 1 = (.err (.invalidStart 1 StepStatus.Complete), smAC) ∧
    completeStepV2 smAC "T" 1 "x"
      = (.err (.invalidComplete 1 StepStatus.Complete), smAC) :=
  ⟨(step_status_monotone smA "T" "" "x" "" 1 0 0 [] [] []).1 chainA 0 stepA
      (by decide) (by decide) (by decide) (by decide),
   ((step_status_monotone smAC "T" "" "x" "" 1 0 0 [] [] []).2.2.1 chainAC 0
      stepAC (by decide) (by decide) (by decide) (by decide) (by decide)).1,
   ((step_status_monotone smAC "T" "" "x" "" 1 0 0 [] [] []).2.2.1 chainAC 0
      stepAC (by decide) (by decide) (by decide) (by decide) (by decide)).2⟩

theorem filterMap_ite_eq_map_filter {α β : Type} (p : α → Prop)
    [DecidablePred p] (f : α → β) (l : List α) :
    l.filterMap (fun a => if p a then some (f a) else none)
      = (l.filter (fun a => decide (p a))).map f := by
  induction l with
  | nil => simp
  | cons a tl ih =>
    by_cases h : p a <;> simp [h, ih]

/-- C9 counterexample: a 34-character Chinese summary is far below 100
characters, yet the completed-work preview does not show it in full:
the truncation in renderDecisionPoint measures Go len, which is the
UTF-8 byte count (here 102), and cuts at byte 100. -/
theorem summary_truncated_at_bytes_not_chars_cex :
    cjk34.length = 34 ∧
    (utf8Bytes cjk34).length = 102 ∧
    (decisionOf (completeStepV2 smA "T" 1 cjk34).1).isSome = true ∧
    ((decisionOf (completeStepV2 smA "T" 1 cjk34).1).getD default).completedPreview
      = [{ number := 1, name := "a", summaryLine := some (summaryPreviewBytes cjk34) }] ∧
    summaryPreviewBytes cjk34 ≠ utf8Bytes cjk34 := by decide

/-- C9 amended: the completed-work preview lists exactly the Complete
steps, and each summary shown is truncated by UTF-8 byte length, not
by characters: a summary of at most 100 bytes appears in full, and a
longer one is shown as its first 100 bytes followed by a three-byte
ellipsis (103 bytes in total).  For pure ASCII summaries bytes and
characters coincide, so only then is the fixed length 100
characters. -/
theorem summary_preview_spec :
    ∀ (chain : TaskChainV2) (idx : Nat) (s : String),
    ((renderDecisionPoint chain idx).completedPreview
      = (chain.Steps.filter (fun t => decide (t.Status = StepStatus.Complete))).map (fun t => { number := t.Number, name := t.Name, summaryLine := if t.Summary = "" then none else some (summaryPreviewBytes t.Summary) })) ∧
    ((utf8Bytes s).length ≤ 100 → summaryPreviewBytes s = utf8Bytes s) ∧
    (100 < (utf8Bytes s).length →
      (summaryPreviewBytes s).length = 103 ∧
      (summaryPreviewBytes s).take 100 = (utf8Bytes s).take 100) := by
  intro chain idx s
  refine ⟨?_, ?_, ?_⟩
  · simp only [renderDecisionPoint]
    exact filterMap_ite_eq_map_filter _ _ _
  · intro h
    simp [summaryPreviewBytes, Nat.not_lt.mpr h]
  · intro h
    have hdots : utf8Bytes "..." = [46, 46, 46] := rfl
    constructor
    · simp only [summaryPreviewBytes, if_pos h, hdots, List.length_append,
        List.length_take, List.length_cons, List.length_nil]
      omega
    · simp only [summaryPreviewBytes, if_pos h]
      rw [List.take_append_eq_append_take]
      have hlen : ((utf8Bytes s).take 100).length = 100 := by
        rw [List.length_take]
        omega
      rw [hlen]
      simp [List.take_take]

/-- C9 witness: a short ASCII summary appears in full, and the
102-byte Chinese summary is shown as 103 bytes whose first 100 bytes
are the first 100 bytes of the summary. -/
theorem summary_preview_spec_witness :
    summaryPreviewBytes "short" = utf8Bytes "short" ∧
    (summaryPreviewBytes cjk34).length = 103 ∧
    (summaryPreviewBytes cjk34).take 100 = (utf8Bytes cjk34).take 100 :=
  ⟨(summary_preview_spec default 0 "short").2.1 (by decide),
   ((summary_preview_spec default 0 cjk34).2.2 (by decide)).1,
   ((summary_preview_spec default 0 cjk34).2.2 (by decide)).2⟩

theorem mem_take_succ_number_le {l : List Step} {after : ℚ} {i : Nat}
    {anchor : Step}
    (hord : List.Pairwise (· < ·) (l.map Step.Number))
    (hf : findStepIdx l after = some (i, anchor)) :
    ∀ x ∈ l.take (i + 1), x.Number ≤ after := by
  induction l generalizing i with
  | nil => simp [findStepIdx] at hf
  | cons s rest ih =>
    rw [findStepIdx] at hf
    by_cases hs : s.Number = after
    · rw [if_pos hs] at hf
      injection hf with h2
      obtain ⟨hi, ha⟩ := Prod.mk.injEq .. ▸ h2
      subst hi
      intro x hx
      simp only [List.take_succ_cons, List.take_zero] at hx
      rcases List.mem_cons.mp hx with rfl | hx
      · exact le_of_eq hs
      · simp at hx
    · rw [if_neg hs] at hf
      rcases hrest : findStepIdx rest after with _ | p
      · rw [hrest] at hf; simp at hf
      · rw [hrest] at hf
        obtain ⟨p1, p2⟩ := p
        simp only [Option.map_some'] at hf
        injection hf with h2
        obtain ⟨hi, ha⟩ := Prod.mk.injEq .. ▸ h2
        subst hi
        subst ha
        intro x hx
        simp only [List.take_succ_cons] at hx
        rw [List.map_cons, List.pairwise_cons] at hord
        rcases List.mem_cons.mp hx with rfl | hx
        · have hmem := (findStepIdx_some hrest).2.2.2
          have hnum := (findStepIdx_some hrest).2.2.1
          have hlt := hord.1 p2.Number (List.mem_map.mpr ⟨p2, hmem, rfl⟩)
          rw [hnum] at hlt
          exact le_of_lt hlt
        · exact ih hord.2 hrest x hx

/-- C5 counterexample: two inserts with the same anchor 1 both
succeed, the second regenerating the fractional number 1.1, so the
resulting chain holds the numbers 1, 1.1, 1.1 and the full step
sequence is not ascending. -/
theorem insert_same_anchor_twice_breaks_ascending_cex :
    (insertStepsV2 (insertStepsV2 smA "T" 1 [⟨"x", ""⟩]).2 "T" 1 [⟨"y", ""⟩]).1
      = .ok ∧
    chainNumbers
      (insertStepsV2 (insertStepsV2 smA "T" 1 [⟨"x", ""⟩]).2 "T" 1 [⟨"y", ""⟩]).2
      "T" = [1, 11 / 10, 11 / 10] ∧
    ¬ List.Pairwise (· < ·) (chainNumbers
      (insertStepsV2 (insertStepsV2 smA "T" 1 [⟨"x", ""⟩]).2 "T" 1 [⟨"y", ""⟩]).2
      "T") := by
  have hc1 : lookupAssoc smA.TaskChainsV2 "T" = some chainA := by decide
  have hf1 : findStepIdx chainA.Steps 1 = some (0, stepA) := by decide
  have h1 := @insertStepsV2_ok smA "T" 1 [⟨"x", ""⟩] chainA 0 stepA
    (by decide) (by decide) hc1 hf1
  have hsteps1 : chainA.Steps.take (0 + 1) ++ mkInsertSteps 1 0 [⟨"x", ""⟩]
      ++ chainA.Steps.drop (0 + 1)
      = [stepA, { Number := 1 + ((0 + 1 : Nat) : ℚ) / 10, Name := "x", Input := "", Status := StepStatus.Todo, Summary := "" }] := by
    simp [chainA, mkInsertSteps]
  have hc2 : lookupAssoc (insertStepsV2 smA "T" 1 [⟨"x", ""⟩]).2.TaskChainsV2 "T"
      = some { chainA with Steps := chainA.Steps.take (0 + 1) ++ mkInsertSteps 1 0 [⟨"x", ""⟩] ++ chainA.Steps.drop (0 + 1) } := by
    rw [h1]
    exact lookup_setAssoc_self ..
  have hf2 : findStepIdx ({ chainA with Steps := chainA.Steps.take (0 + 1) ++ mkInsertSteps 1 0 [⟨"x", ""⟩] ++ chainA.Steps.drop (0 + 1) } : TaskChainV2).Steps 1 = some (0, stepA) := by
    rw [show ({ chainA with Steps := chainA.Steps.take (0 + 1) ++ mkInsertSteps 1 0 [⟨"x", ""⟩] ++ chainA.Steps.drop (0 + 1) } : TaskChainV2).Steps = chainA.Steps.take (0 + 1) ++ mkInsertSteps 1 0 [⟨"x", ""⟩] ++ chainA.Steps.drop (0 + 1) from rfl, hsteps1]
    rw [findStepIdx, if_pos (show stepA.Number = 1 from rfl)]
  have h2 := @insertStepsV2_ok (insertStepsV2 smA "T" 1 [⟨"x", ""⟩]).2 "T" 1
    [⟨"y", ""⟩] ({ chainA with Steps := chainA.Steps.take (0 + 1) ++ mkInsertSteps 1 0 [⟨"x", ""⟩] ++ chainA.Steps.drop (0 + 1) }) 0 stepA (by decide) (by decide) hc2 hf2
  have hnum : chainNumbers
      (insertStepsV2 (insertStepsV2 smA "T" 1 [⟨"x", ""⟩]).2 "T" 1 [⟨"y", ""⟩]).2
      "T" = [1, 11 / 10, 11 / 10] := by
    rw [h2, chainNumbers_pair_set]
    show ((({ chainA with Steps := chainA.Steps.take (0 + 1) ++ mkInsertSteps 1 0 [⟨"x", ""⟩] ++ chainA.Steps.drop (0 + 1) } : TaskChainV2)).Steps.take (0 + 1) ++ mkInsertSteps 1 0 [⟨"y", ""⟩] ++ (({ chainA with Steps := chainA.Steps.take (0 + 1) ++ mkInsertSteps 1 0 [⟨"x", ""⟩] ++ chainA.Steps.drop (0 + 1) } : TaskChainV2)).Steps.drop (0 + 1)).map Step.Number = [1, 11 / 10, 11 / 10]
    rw [show (({ chainA with Steps := chainA.Steps.take (0 + 1) ++ mkInsertSteps 1 0 [⟨"x", ""⟩] ++ chainA.Steps.drop (0 + 1) } : TaskChainV2)).Steps = chainA.Steps.take (0 + 1) ++ mkInsertSteps 1 0 [⟨"x", ""⟩] ++ chainA.Steps.drop (0 + 1) from rfl, hsteps1]
    norm_num [mkInsertSteps, stepA]
  refine ⟨by rw [h2], hnum, ?_⟩
  rw [hnum]
  intro h
  simp only [List.pairwise_cons, List.mem_cons, List.mem_singleton] at h
  have := h.2.1 (11 / 10) (Or.inl rfl)
  exact lt_irrefl _ this

/-- C5 amended: insert fails with AnchorNotFound when no step has the
anchor number; otherwise it succeeds and splices one fresh Todo step
per entry — the k-th numbered after + (k+1)/10, carrying the entry
name and input — immediately after the anchor in storage order.  The
full sequence remains ascending provided the chain was ascending and
every step after the anchor has a number above after + len(plan)/10;
without that proviso duplicate numbers arise (see the
counterexample). -/
theorem insert_fractional_numbering_spec :
    ∀ (sm : SessionManager) (taskID : String) (after : ℚ)
      (plan : List PlanEntry) (chain : TaskChainV2), taskID ≠ "" → plan ≠ [] →
      lookupAssoc sm.TaskChainsV2 taskID = some chain →
      ((∀ s ∈ chain.Steps, s.Number ≠ after) →
        insertStepsV2 sm taskID after plan
          = (.err (.anchorNotFound after), sm)) ∧
      (∀ i anchor, findStepIdx chain.Steps after = some (i, anchor) →
        (insertStepsV2 sm taskID after plan).1 = .ok ∧
        ∀ c, lookupAssoc
            (insertStepsV2 sm taskID after plan).2.TaskChainsV2 taskID
            = some c →
          c.Steps = chain.Steps.take (i + 1) ++ mkInsertSteps after 0 plan ++ chain.Steps.drop (i + 1) ∧
          (mkInsertSteps after 0 plan).length = plan.length ∧
          (∀ k, k < plan.length →
            ((mkInsertSteps after 0 plan).getD k default).Number
              = after + ((k + 1 : Nat) : ℚ) / 10 ∧
            ((mkInsertSteps after 0 plan).getD k default).Status
              = StepStatus.Todo ∧
            ((mkInsertSteps after 0 plan).getD k default).Name
              = (plan.getD k default).name ∧
            ((mkInsertSteps after 0 plan).getD k default).Input
              = (plan.getD k default).input) ∧
          (chainOrdered chain →
            (∀ s ∈ chain.Steps.drop (i + 1),
              after + (plan.length : ℚ) / 10 < s.Number) →
            chainOrdered c)) := by
  intro sm taskID after plan chain ht hp hc
  constructor
  · intro hnone
    exact insertStepsV2_err_anchor ht hp hc (findStepIdx_none_iff.mpr hnone)
  · intro i anchor hf
    have hok := insertStepsV2_ok ht hp hc hf
    refine ⟨by rw [hok], ?_⟩
    intro c hc2
    rw [hok] at hc2
    simp only [lookup_setAssoc_self] at hc2
    injection hc2 with h2
    subst h2
    refine ⟨rfl, mkInsertSteps_length after 0 plan, ?_, ?_⟩
    · intro k hk
      rw [mkInsertSteps_getD after plan 0 k hk]
      refine ⟨by norm_num, rfl, rfl, rfl⟩
    · intro hord hcol
      unfold chainOrdered at hord ⊢
      show List.Pairwise (· < ·) ((chain.Steps.take (i + 1) ++ mkInsertSteps after 0 plan ++ chain.Steps.drop (i + 1)).map Step.Number)
      have hA_le : ∀ x ∈ chain.Steps.take (i + 1), x.Number ≤ after :=
        mem_take_succ_number_le hord hf
      have hB_gt : ∀ y ∈ mkInsertSteps after 0 plan, after < y.Number := by
        intro y hy
        have := mkInsertSteps_number_gt after 0 plan y hy
        simpa using this
      have hB_le : ∀ y ∈ mkInsertSteps after 0 plan,
          y.Number ≤ after + (plan.length : ℚ) / 10 := by
        intro y hy
        have := mkInsertSteps_number_le after 0 plan y hy
        simpa using this
      have hsplit := hord
      rw [← List.take_append_drop (i + 1) chain.Steps, List.map_append]
        at hsplit
      have hAD := (List.pairwise_append.mp hsplit).2.2
      rw [List.map_append, List.map_append, List.pairwise_append]
      refine ⟨?_, ?_, ?_⟩
      · rw [List.pairwise_append]
        refine ⟨?_, mkInsertSteps_sorted after 0 plan, ?_⟩
        · exact List.Pairwise.sublist
            (List.Sublist.map _ (List.take_sublist _ _)) hord
        · intro a ha b hb
          obtain ⟨x, hx, rfl⟩ := List.mem_map.mp ha
          obtain ⟨y, hy, rfl⟩ := List.mem_map.mp hb
          exact lt_of_le_of_lt (hA_le x hx) (hB_gt y hy)
      · exact List.Pairwise.sublist
          (List.Sublist.map _ (List.drop_sublist _ _)) hord
      · intro a ha z hz
        obtain ⟨w, hw, rfl⟩ := List.mem_map.mp hz
        rcases List.mem_append.mp ha with ha1 | ha1
        · obtain ⟨x, hx, rfl⟩ := List.mem_map.mp ha1
          exact hAD x.Number (List.mem_map.mpr ⟨x, hx, rfl⟩) w.Number
            (List.mem_map.mpr ⟨w, hw, rfl⟩)
        · obtain ⟨y, hy, rfl⟩ := List.mem_map.mp ha1
          exact lt_of_le_of_lt (hB_le y hy) (hcol w hw)

/-- C5 witness: inserting one step after step 1 of the two-step chain
T succeeds, and the new step receives the fractional number 1.1. -/
theorem insert_fractional_numbering_spec_witness :
    (insertStepsV2 smAB "T" 1 [⟨"r", ""⟩]).1 = .ok ∧
    ((mkInsertSteps 1 0 [⟨"r", ""⟩]).getD 0 default).Number
      = 1 + ((0 + 1 : Nat) : ℚ) / 10 := by
  have h := (insert_fractional_numbering_spec smAB "T" 1 [⟨"r", ""⟩] chainAB
    (by decide) (by decide) (by decide)).2 0 stepA (by decide)
  refine ⟨h.1, ?_⟩
  have hc2 : lookupAssoc
      (insertStepsV2 smAB "T" 1 [⟨"r", ""⟩]).2.TaskChainsV2 "T"
      = some { chainAB with Steps := chainAB.Steps.take (0 + 1) ++ mkInsertSteps 1 0 [⟨"r", ""⟩] ++ chainAB.Steps.drop (0 + 1) } := by
    rw [@insertStepsV2_ok smAB "T" 1 [⟨"r", ""⟩] chainAB 0 stepA (by decide)
      (by decide) (by decide) (by decide)]
    exact lookup_setAssoc_self ..
  exact ((h.2 _ hc2).2.2.1 0 (by decide)).1

end MPM
